import Mathlib

/-!
Verification development for the cacher subsystem of cyberinferno/go-utils.

The subsystem has two implementations of the `Cacher[T]` interface:

* `MemoryCacher` (cacher/memory_cacher.go): go-cache storage plus a
  `singleflight.Group` for request coalescing;
* `redisCacher` (redis-backed file of the same package): Redis storage with a
  `SetNX` distributed lock, Lua ownership-checked release/extend scripts, and an
  exponential-backoff wait loop for lock losers.

The embedding below translates both implementations.  Sequential functions
model one call executing alone (the singleflight `Do` body then runs inline);
two small-step transition systems model N goroutines racing on a single key,
one scheduler step executing one atomic action of one goroutine.  Store
network failures, real-time TTL expiry of entries, and the background
lock-extension ticker's timing are not modeled (the extension script itself
is, as `extendScript`); durations are in milliseconds as plain `Nat`.
-/

set_option autoImplicit false

universe u

variable {T : Type}

/-- Go `error` values surfaced by the cacher code: caller-supplied fetch
errors, `fmt.Errorf("...: %w", err)` wrappings, and `errors.New` sentinels. -/
inductive CErr where
  | fetchErr (msg : String)
  | wrapped (ctxt : String) (cause : CErr)
  | simpleErr (msg : String)
deriving DecidableEq, Repr

/-- `ctx.Err()` for a cancelled context. -/
def ctxCanceledErr : CErr := .simpleErr "context canceled"

/-- `errors.New("timeout waiting for cache")` from `waitForCache`. -/
def timeoutErr : CErr := .simpleErr "timeout waiting for cache"

/-- `errors.New("fetch operation failed or cache not populated")` from
`waitForCache` when the lock vanished without a cached value. -/
def notPopulatedErr : CErr := .simpleErr "fetch operation failed or cache not populated"

/-- Abstract cause of a `json.Unmarshal` failure. -/
def jsonCause : CErr := .simpleErr "json unmarshal error"

/-- `fmt.Errorf("failed to unmarshal cached value: %w", err)`. -/
def unmarshalErr : CErr := .wrapped "failed to unmarshal cached value" jsonCause

/-- `fmt.Errorf("fetch function failed: %w", err)` from the redis winner path. -/
def fetchFailed (e : CErr) : CErr := .wrapped "fetch function failed" e

/-- `fmt.Errorf("unexpected type in cache for key %s", key)` from
`MemoryCacher.GetOrFetch`'s final type assertion. -/
def typeMismatchErr (key : String) : CErr :=
  .simpleErr ("unexpected type in cache for key " ++ key)

/-! ## Redis store model

The redis database restricted to string keys and string values; an entry's
TTL is handled by redis itself and is not modeled. -/

/-- The redis key space: a partial map from keys to stored strings. -/
def RStore : Type := String → Option String

/-- `SET k v` (with any TTL). -/
def RStore.update (s : RStore) (k v : String) : RStore :=
  fun x => if x = k then some v else s x

/-- `DEL k`. -/
def RStore.erase (s : RStore) (k : String) : RStore :=
  fun x => if x = k then none else s x

/-- An empty database. -/
def RStore.empty : RStore := fun _ => none

/-- `json.Unmarshal` of a cached string, as in both redis read paths:
decodable bytes yield the value, anything else yields the unmarshal error. -/
def decodeRes (dec : String → Option T) (str : String) : Except CErr T :=
  match dec str with
  | some v => .ok v
  | none => .error unmarshalErr

/-! ## Lua lock scripts (redisCacher)

The release script (deferred in `GetOrFetch`) and the extension script
(`extendLock`) both `GET` the lock key and act only when the stored value
equals the caller's token.  For these two scripts expiry matters, so the lock
cell is modeled as `Option (token, expiry)`; the scripts return redis's
integer reply. -/

/-- The lock cell: `none` when the lock key is absent, otherwise the stored
owner token together with its current expiry time (ms). -/
def LockCell : Type := Option (String × Nat)

/-- Release script: `if get(k) == tok then del(k) (reply 1) else reply 0`. -/
def releaseScript (lk : LockCell) (tok : String) : LockCell × Nat :=
  match lk with
  | some (t, e) => if t = tok then (none, 1) else (some (t, e), 0)
  | none => (none, 0)

/-- Extension script: `if get(k) == tok then pexpire(k, ttl) (reply 1) else
reply 0`; `pexpire` resets the expiry to the full TTL from the current time. -/
def extendScript (lk : LockCell) (tok : String) (now ttlMs : Nat) : LockCell × Nat :=
  match lk with
  | some (t, e) => if t = tok then (some (t, now + ttlMs), 1) else (some (t, e), 0)
  | none => (none, 0)

/-- Ownership-checked release acting on the whole store (the deferred release
in `GetOrFetch`, which has no expiry concern): delete `lockKey` if it holds
`tok`, else no-op; also returns the script's integer reply. -/
def releaseOn (s : RStore) (lockKey tok : String) : RStore × Nat :=
  if s lockKey = some tok then (s.erase lockKey, 1) else (s, 0)

/-! ## waitForCache (redisCacher)

The loop polls the store, which other goroutines mutate concurrently, so the
model takes a list of store snapshots: one triple per iteration, giving the
store observed at the up-to-three redis calls of that iteration (`GET key`,
`EXISTS lockKey`, final `GET key`).  Wall-clock time advances only while
sleeping; the context-done signal is a function of the current time. -/

/-- `backoff *= 2; if backoff > maxBackoff { backoff = maxBackoff }` with the
source's fixed `maxBackoff` of 500ms. -/
def bup (b : Nat) : Nat := if 500 < b * 2 then 500 else b * 2

/-- Result of a `waitForCache` run: the returned value or error (`none` only
when the snapshot list was too short to finish, a modeling artifact), the
intervals slept in order, and the number of `GET key` reads performed. -/
structure WaitOut (T : Type) where
  res : Option (Except CErr T)
  sleeps : List Nat
  reads : Nat
deriving Repr

/-- The body of `redisCacher.waitForCache`: per iteration check the context,
check the deadline, `GET key` (hit returns the decoded value), `EXISTS
lockKey`; if the lock is gone perform one final `GET key` and return its
decoded value or `notPopulatedErr`; otherwise sleep the current backoff,
double it (capped), and retry. -/
def waitLoop (dec : String → Option T) (key lockKey : String)
    (ctxDone : Nat → Bool) (deadline : Nat) :
    List (RStore × RStore × RStore) → Nat → Nat → WaitOut T
  | [], _, _ => ⟨none, [], 0⟩
  | (s1, s2, s3) :: rest, now, b =>
    if ctxDone now then ⟨some (.error ctxCanceledErr), [], 0⟩
    else if deadline < now then ⟨some (.error timeoutErr), [], 0⟩
    else
      match s1 key with
      | some str => ⟨some (decodeRes dec str), [], 1⟩
      | none =>
        match s2 lockKey with
        | none =>
          match s3 key with
          | some str => ⟨some (decodeRes dec str), [], 2⟩
          | none => ⟨some (.error notPopulatedErr), [], 2⟩
        | some _ =>
          let out := waitLoop dec key lockKey ctxDone deadline rest (now + b) (bup b)
          ⟨out.res, b :: out.sleeps, 1 + out.reads⟩

/-- `redisCacher.waitForCache`: the loop started with backoff 10ms and the
deadline `timeout` from the start of waiting. -/
def waitForCache (dec : String → Option T) (key lockKey : String)
    (ctxDone : Nat → Bool) (timeout : Nat)
    (snaps : List (RStore × RStore × RStore)) : WaitOut T :=
  waitLoop dec key lockKey ctxDone timeout snaps 0 10

/-! ## redisCacher.GetOrFetch, single caller

One call running alone: `GET key` (hit decodes and returns), on miss `SETNX`
on `key + ":lock"`; the winner runs the fetch, on error returns the wrapped
error, on success `SET`s the encoded value, and in both cases the deferred
ownership-checked release runs before the caller observes the result.  A
loser enters `waitForCache` with a 30s deadline.  `fo` is the outcome of the
caller-supplied fetch function, `tok` the `UnixNano` lock token; the third
result component counts fetch-function invocations. -/
def redisGetOrFetch (enc : T → String) (dec : String → Option T)
    (ctxDone : Nat → Bool) (key tok : String) (fo : Except CErr T)
    (snaps : List (RStore × RStore × RStore)) (store : RStore) :
    Option (Except CErr T) × RStore × Nat :=
  match store key with
  | some str => (some (decodeRes dec str), store, 0)
  | none =>
    let lockKey := key ++ ":lock"
    match store lockKey with
    | some _ => ((waitForCache dec key lockKey ctxDone 30000 snaps).res, store, 0)
    | none =>
      let s1 := store.update lockKey tok
      match fo with
      | .error e => (some (.error (fetchFailed e)), (releaseOn s1 lockKey tok).1, 1)
      | .ok v =>
        let s2 := s1.update key (enc v)
        (some (.ok v), (releaseOn s2 lockKey tok).1, 1)

/-! ## MemoryCacher, single caller

go-cache stores `interface{}` values, so a stored value's dynamic type may
differ from `T`; `DynVal` keeps that distinction.  The stored TTL is recorded
but expiry is not modeled. -/

/-- A dynamically-typed cached value: either an actual `T` or a value of some
other runtime type (identified by a tag). -/
inductive DynVal (T : Type) where
  | typed (v : T)
  | other (tag : String)
deriving DecidableEq, Repr

/-- The go-cache table: key to stored value and TTL. -/
def MemState (T : Type) : Type := String → Option (DynVal T × Nat)

/-- `cache.Set(key, d, ttl)`. -/
def MemState.set (s : MemState T) (k : String) (d : DynVal T) (ttl : Nat) : MemState T :=
  fun x => if x = k then some (d, ttl) else s x

/-- `cache.Delete(key)`. -/
def MemState.del (s : MemState T) (k : String) : MemState T :=
  fun x => if x = k then none else s x

/-- An empty table. -/
def MemState.empty (T : Type) : MemState T := fun _ => none

/-- `MemoryCacher.GetOrFetch`, one call executing alone (the singleflight
`Do` body runs inline; with no concurrent call the double-check reads the
same state).  The untyped `Do` result and the final type assertion are kept
explicit.  `ctxDone` is the only visible facet of the context, and the code
consults it solely by passing the context to `fetchFn`.  Returns the result,
the final table, and the number of fetch-function invocations. -/
def memGetOrFetch (ctxDone : Bool) (key : String) (ttl : Nat)
    (fetchFn : Bool → Except CErr T) (s : MemState T) :
    Except CErr T × MemState T × Nat :=
  match s key with
  | some (.typed v, _) => (.ok v, s, 0)
  | _ =>
    let doRes : Except CErr (DynVal T) × MemState T × Nat :=
      match s key with
      | some (.typed v, _) => (.ok (.typed v), s, 0)
      | _ =>
        match fetchFn ctxDone with
        | .error e => (.error e, s, 1)
        | .ok v => (.ok (.typed v), s.set key (.typed v) ttl, 1)
    match doRes with
    | (.error e, s1, n) => (.error e, s1, n)
    | (.ok (.typed v), s1, n) => (.ok v, s1, n)
    | (.ok (.other _), s1, n) => (.error (typeMismatchErr key), s1, n)

/-! ## DeleteByPrefix

Go map iteration order is unspecified, so `MemoryCacher.DeleteByPrefix` is
modeled over an arbitrary enumeration `items` of the table's keys; redis
`SCAN` likewise yields an arbitrary enumeration `scanned`.  The context-done
signal is a function of a step counter that advances once per loop iteration;
the pre-loop check reads step 0, as does the first iteration's check (no
observable action separates them in the source). -/

/-- `strings.HasPrefix(k, pre)`, phrased over the character lists so that it
evaluates by kernel reduction (`String.isPrefixOf` in core is defined by
well-founded recursion; this is the same character-level test). -/
def startsWith (pre k : String) : Bool := pre.toList.isPrefixOf k.toList

/-- The deletion loop of `MemoryCacher.DeleteByPrefix`: per key check the
context (returning the partial count with `ctx.Err()` when done), then delete
and count the key when it has the prefix. -/
def memDeleteByPrefixLoop (done : Nat → Bool) (pre : String) :
    List String → Nat → Nat → MemState T → (Nat × Option CErr) × MemState T
  | [], _, cnt, s => ((cnt, none), s)
  | k :: rest, j, cnt, s =>
    if done j then ((cnt, some ctxCanceledErr), s)
    else if startsWith pre k then
      memDeleteByPrefixLoop done pre rest (j + 1) (cnt + 1) (s.del k)
    else
      memDeleteByPrefixLoop done pre rest (j + 1) cnt s

/-- `MemoryCacher.DeleteByPrefix`: pre-loop context check, then the loop over
the `Items()` snapshot. -/
def memDeleteByPrefix (done : Nat → Bool) (pre : String)
    (items : List String) (s : MemState T) : (Nat × Option CErr) × MemState T :=
  if done 0 then ((0, some ctxCanceledErr), s)
  else memDeleteByPrefixLoop done pre items 0 0 s

/-- The scan phase of `redisCacher.DeleteByPrefix`: iterate the SCAN stream,
checking the context before each key and collecting keys with the prefix;
`none` signals cancellation (the code then returns the current
`deletedCount`, still 0, with `ctx.Err()`). -/
def redisScanLoop (done : Nat → Bool) (pre : String) :
    List String → Nat → List String → Option (List String)
  | [], _, acc => some acc
  | k :: rest, j, acc =>
    if done j then none
    else redisScanLoop done pre rest (j + 1)
      (if startsWith pre k then acc ++ [k] else acc)

/-- `DEL k1 ... kn`: deletes the keys and returns how many existed. -/
def delKeys : RStore → List String → Nat × RStore
  | st, [] => (0, st)
  | st, k :: rest =>
    let hit := if (st k).isSome then 1 else 0
    let out := delKeys (st.erase k) rest
    (hit + out.1, out.2)

/-- `redisCacher.DeleteByPrefix`: scan collecting matching keys, then one
batched `DEL` whose reply becomes the returned count (0 without keys). -/
def redisDeleteByPrefix (done : Nat → Bool) (pre : String)
    (scanned : List String) (store : RStore) : (Nat × Option CErr) × RStore :=
  match redisScanLoop done pre scanned 0 [] with
  | none => ((0, some ctxCanceledErr), store)
  | some keys =>
    match keys with
    | [] => ((0, none), store)
    | _ :: _ =>
      let out := delKeys store keys
      ((out.1, none), out.2)

/-! ## Concurrent model: MemoryCacher.GetOrFetch

N goroutines call `GetOrFetch` for the same key on the same `MemoryCacher`;
one scheduler step runs one atomic action of one goroutine.  The shared state
keeps the cache cell for that key, the singleflight entry (`flightActive`
mirrors the `g.m[key]` entry, deleted when the call completes; `flightId`
numbers flight instances and `results` records each instance's published
result, which registered waiters can still read after the map entry is
deleted, exactly as waiters of `singleflight.call` read the shared `val`/`err`
after `doCall`), and the total number of fetch-function executions.  The
fetch outcome of the i-th execution is `fo i`.  Do's result is necessarily a
`T` here (the function literal returns `T` values), so the final type
assertion of the source is folded into the `done` transition. -/

deriving instance DecidableEq for Except

/-- Program counter of one goroutine in a `MemoryCacher.GetOrFetch` call:
initial cache read; `group.Do` entry; owner's double-check, fetch execution,
`cache.Set`, and completion of the `Do` call; waiter blocked on a flight's
result; call returned. -/
inductive MPc (T : Type) where
  | start
  | enter
  | check (fid : Nat)
  | mfetch (fid : Nat)
  | mstore (fid : Nat) (v : T)
  | publish (fid : Nat) (r : Except CErr T)
  | waitres (fid : Nat)
  | done (r : Except CErr T)
deriving DecidableEq, Repr

/-- Shared state of the racing `MemoryCacher.GetOrFetch` calls. -/
structure MSys (T : Type) where
  cache : Option T
  flightActive : Bool
  flightId : Nat
  results : Nat → Option (Except CErr T)
  fetchCount : Nat
  pcs : List (MPc T)

/-- Pointwise update of a result table. -/
def fupd {α : Type u} (f : Nat → Option α) (i : Nat) (a : α) : Nat → Option α :=
  fun j => if j = i then some a else f j

/-- One atomic action of goroutine `t` in the memory model.  A goroutine that
is done, a waiter whose flight has not published, or an out-of-range index
leaves the state unchanged. -/
def mstep (fo : Nat → Except CErr T) (s : MSys T) (t : Nat) : MSys T :=
  match s.pcs.get? t with
  | none => s
  | some pc =>
    match pc with
    | .start =>
      match s.cache with
      | some v => { s with pcs := s.pcs.set t (.done (.ok v)) }
      | none => { s with pcs := s.pcs.set t .enter }
    | .enter =>
      if s.flightActive then
        { s with pcs := s.pcs.set t (.waitres (s.flightId - 1)) }
      else
        { s with flightActive := true, flightId := s.flightId + 1,
                 pcs := s.pcs.set t (.check s.flightId) }
    | .check fid =>
      match s.cache with
      | some v => { s with pcs := s.pcs.set t (.publish fid (.ok v)) }
      | none => { s with pcs := s.pcs.set t (.mfetch fid) }
    | .mfetch fid =>
      match fo s.fetchCount with
      | .ok v =>
        { s with fetchCount := s.fetchCount + 1, pcs := s.pcs.set t (.mstore fid v) }
      | .error e =>
        { s with fetchCount := s.fetchCount + 1,
                 pcs := s.pcs.set t (.publish fid (.error e)) }
    | .mstore fid v =>
      { s with cache := some v, pcs := s.pcs.set t (.publish fid (.ok v)) }
    | .publish fid r =>
      { s with flightActive := false, results := fupd s.results fid r,
               pcs := s.pcs.set t (.done r) }
    | .waitres fid =>
      match s.results fid with
      | some r => { s with pcs := s.pcs.set t (.done r) }
      | none => s
    | .done _ => s

/-- Cold initial state: key absent, no flight, `n` goroutines about to call. -/
def mInit (T : Type) (n : Nat) : MSys T :=
  ⟨none, false, 0, fun _ => none, 0, List.replicate n .start⟩

/-- Run a schedule (a list of goroutine indices) in the memory model. -/
def mrun (fo : Nat → Except CErr T) (sched : List Nat) (s : MSys T) : MSys T :=
  sched.foldl (mstep fo) s

/-- Whether this program counter is inside the singleflight owner section. -/
def MPc.isOwner : MPc T → Bool
  | .check _ | .mfetch _ | .mstore _ _ | .publish _ _ => true
  | _ => false

/-- Whether the call has returned. -/
def MPc.isDone : MPc T → Bool
  | .done _ => true
  | _ => false

/-- Whether the goroutine is before any store/publish/return effect. -/
def MPc.isEarly : MPc T → Bool
  | .mstore _ _ | .publish _ _ | .done _ => false
  | _ => true

/-- All goroutines have returned. -/
def mComplete (s : MSys T) : Prop := s.pcs.all MPc.isDone = true

/-! ## Concurrent model: redisCacher.GetOrFetch

Same setup for the redis variant on a single key: the shared state is that
key's value cell and its lock cell.  Lock tokens are modeled by the acquiring
goroutine's index (the source uses a fresh `UnixNano` string per acquisition;
only effective uniqueness matters).  The wait loop's wall clock advances by
the backoff on each sleep; lock TTL expiry and the background extension
ticker are not modeled (no step lets a held lock vanish, which corresponds to
extension keeping the lock alive for the fetch's duration). -/

/-- Program counter of one goroutine in a `redisCacher.GetOrFetch` call:
initial `GET`; `SETNX` attempt; winner's fetch, `SET`, and deferred
ownership-checked release; loser's wait-loop head (context/deadline check and
`GET`), `EXISTS lockKey` check, and final `GET` after the lock vanished;
call returned. -/
inductive RPc (T : Type) where
  | start
  | trylock
  | rfetch
  | rstore (v : T)
  | release (r : Except CErr T)
  | witer (b now : Nat)
  | wlock (b now : Nat)
  | wfinal (b now : Nat)
  | done (r : Except CErr T)
deriving DecidableEq, Repr

/-- Shared state of the racing `redisCacher.GetOrFetch` calls. -/
structure RSys (T : Type) where
  cval : Option String
  lock : Option Nat
  fetchCount : Nat
  pcs : List (RPc T)

/-- One atomic action of goroutine `t` in the redis model. -/
def rstep (enc : T → String) (dec : String → Option T)
    (fo : Nat → Except CErr T) (ctxDone : Nat → Bool)
    (s : RSys T) (t : Nat) : RSys T :=
  match s.pcs.get? t with
  | none => s
  | some pc =>
    match pc with
    | .start =>
      match s.cval with
      | some str => { s with pcs := s.pcs.set t (.done (decodeRes dec str)) }
      | none => { s with pcs := s.pcs.set t .trylock }
    | .trylock =>
      match s.lock with
      | none => { s with lock := some t, pcs := s.pcs.set t .rfetch }
      | some _ => { s with pcs := s.pcs.set t (.witer 10 0) }
    | .rfetch =>
      match fo s.fetchCount with
      | .ok v =>
        { s with fetchCount := s.fetchCount + 1, pcs := s.pcs.set t (.rstore v) }
      | .error e =>
        { s with fetchCount := s.fetchCount + 1,
                 pcs := s.pcs.set t (.release (.error (fetchFailed e))) }
    | .rstore v =>
      { s with cval := some (enc v), pcs := s.pcs.set t (.release (.ok v)) }
    | .release r =>
      if s.lock = some t then { s with lock := none, pcs := s.pcs.set t (.done r) }
      else { s with pcs := s.pcs.set t (.done r) }
    | .witer b now =>
      if ctxDone now then { s with pcs := s.pcs.set t (.done (.error ctxCanceledErr)) }
      else if 30000 < now then { s with pcs := s.pcs.set t (.done (.error timeoutErr)) }
      else
        match s.cval with
        | some str => { s with pcs := s.pcs.set t (.done (decodeRes dec str)) }
        | none => { s with pcs := s.pcs.set t (.wlock b now) }
    | .wlock b now =>
      match s.lock with
      | some _ => { s with pcs := s.pcs.set t (.witer (bup b) (now + b)) }
      | none => { s with pcs := s.pcs.set t (.wfinal b now) }
    | .wfinal _ _ =>
      match s.cval with
      | some str => { s with pcs := s.pcs.set t (.done (decodeRes dec str)) }
      | none => { s with pcs := s.pcs.set t (.done (.error notPopulatedErr)) }
    | .done _ => s

/-- Cold initial state: value and lock absent, `n` goroutines about to call. -/
def rInit (T : Type) (n : Nat) : RSys T :=
  ⟨none, none, 0, List.replicate n .start⟩

/-- Run a schedule in the redis model. -/
def rrun (enc : T → String) (dec : String → Option T)
    (fo : Nat → Except CErr T) (ctxDone : Nat → Bool)
    (sched : List Nat) (s : RSys T) : RSys T :=
  sched.foldl (rstep enc dec fo ctxDone) s

/-- Whether this program counter is inside the lock-protected winner section
(between a successful `SETNX` and the deferred release completing). -/
def RPc.isOwner : RPc T → Bool
  | .rfetch | .rstore _ | .release _ => true
  | _ => false

/-- Whether this program counter is inside the waitForCache loop. -/
def RPc.isWait : RPc T → Bool
  | .witer _ _ | .wlock _ _ | .wfinal _ _ => true
  | _ => false

/-- Whether the call has returned. -/
def RPc.isDone : RPc T → Bool
  | .done _ => true
  | _ => false

/-- All goroutines have returned. -/
def rComplete (s : RSys T) : Prop := s.pcs.all RPc.isDone = true

/-! ## Inductive invariants of the two concurrent models

`MemSuccInv` / `MemFailInv` are preserved by every `mstep` when the first
fetch execution succeeds / fails; `ROwnInv`, `RSuccInv`, `RFailInv` play the
same role for `rstep`.  They are the induction hypotheses behind the C1
theorems. -/

/-- Invariant of the memory model when the first fetch execution returns
`.ok v`: at most one fetch ever runs, at most one goroutine is inside the
singleflight owner section (and only while the flight map entry exists),
nothing is stored, published or returned before the first fetch, and every
stored / published / returned value is `v`. -/
structure MemSuccInv (v : T) (s : MSys T) : Prop where
  countLe : s.fetchCount ≤ 1
  coldCache : s.fetchCount = 0 → s.cache = none
  coldRes : s.fetchCount = 0 → ∀ f, s.results f = none
  coldPcs : s.fetchCount = 0 → ∀ t pc, s.pcs.get? t = some pc → pc.isEarly = true
  cacheVal : ∀ w, s.cache = some w → w = v
  ownerActive : ∀ t pc, s.pcs.get? t = some pc → pc.isOwner = true → s.flightActive = true
  ownerUniq : ∀ t1 t2 pc1 pc2, s.pcs.get? t1 = some pc1 → s.pcs.get? t2 = some pc2 →
    pc1.isOwner = true → pc2.isOwner = true → t1 = t2
  fetchCold : ∀ t fid, s.pcs.get? t = some (.mfetch fid) → s.fetchCount = 0
  oneProgress : s.fetchCount = 1 →
    s.cache = some v ∨ ∃ t fid, s.pcs.get? t = some (.mstore fid v)
  storeVal : ∀ t fid w, s.pcs.get? t = some (.mstore fid w) → w = v
  pubVal : ∀ t fid r, s.pcs.get? t = some (.publish fid r) → r = .ok v
  resVal : ∀ f r, s.results f = some r → r = .ok v
  doneVal : ∀ t r, s.pcs.get? t = some (.done r) → r = .ok v

/-- Invariant of the memory model when the first fetch execution returns
`.error e`: the cache can only be populated by a second fetch, and while at
most one fetch has run, every published / returned result is `.error e`. -/
structure MemFailInv (e : CErr) (s : MSys T) : Prop where
  cacheLate : ∀ w, s.cache = some w → 2 ≤ s.fetchCount
  storeLate : ∀ t fid w, s.pcs.get? t = some (.mstore fid w) → 2 ≤ s.fetchCount
  resEarly : ∀ f r, s.results f = some r → s.fetchCount ≤ 1 → r = .error e
  pubEarly : ∀ t fid r, s.pcs.get? t = some (.publish fid r) → s.fetchCount ≤ 1 →
    r = .error e
  doneEarly : ∀ t r, s.pcs.get? t = some (.done r) → s.fetchCount ≤ 1 → r = .error e

/-- Lock-ownership invariant of the redis model: a goroutine inside the
winner section holds the lock under its own token. -/
def ROwnInv (s : RSys T) : Prop :=
  ∀ t pc, s.pcs.get? t = some pc → pc.isOwner = true → s.lock = some t

/-- Invariant of the redis model when every fetch execution returns `.ok v`:
the value cell only ever holds `enc v`, a goroutine about to release has
already written the value, a waiter sees either a held lock or the written
value (so the lock-vanished branch always finds the value), and every
returned result is the value or a timeout. -/
structure RSuccInv (enc : T → String) (v : T) (s : RSys T) : Prop where
  cvalEnc : ∀ str, s.cval = some str → str = enc v
  storeVal : ∀ t w, s.pcs.get? t = some (.rstore w) → w = v
  relVal : ∀ t r, s.pcs.get? t = some (.release r) → r = .ok v ∧ s.cval = some (enc v)
  waitSafe : ∀ t pc, s.pcs.get? t = some pc → pc.isWait = true →
    s.lock ≠ none ∨ s.cval = some (enc v)
  wfinalSafe : ∀ t b now, s.pcs.get? t = some (.wfinal b now) → s.cval = some (enc v)
  doneVal : ∀ t r, s.pcs.get? t = some (.done r) → r = .ok v ∨ r = .error timeoutErr

/-- Invariant of the redis model when every fetch execution returns
`.error e`: the value cell stays empty, nothing is ever stored, the winner
returns the wrapped fetch error, and every returned result is the wrapped
fetch error, the not-populated error or a timeout. -/
structure RFailInv (e : CErr) (s : RSys T) : Prop where
  cvalNone : s.cval = none
  noStore : ∀ t w, ¬ s.pcs.get? t = some (.rstore w)
  relVal : ∀ t r, s.pcs.get? t = some (.release r) → r = .error (fetchFailed e)
  doneVal : ∀ t r, s.pcs.get? t = some (.done r) →
    r = .error (fetchFailed e) ∨ r = .error notPopulatedErr ∨ r = .error timeoutErr

/-! ## Helper lemmas -/

theorem get?_some_lt {α : Type u} {l : List α} {i : Nat} {a : α}
    (h : l.get? i = some a) : i < l.length := by
  induction l generalizing i with
  | nil => simp [List.get?] at h
  | cons x xs ih =>
    cases i with
    | zero => simp
    | succ n => exact Nat.succ_lt_succ (ih (by simpa using h))

theorem get?_set_self {α : Type u} (l : List α) (i : Nat) (a : α) (h : i < l.length) :
    (l.set i a).get? i = some a := by
  induction l generalizing i with
  | nil => simp at h
  | cons x xs ih =>
    cases i with
    | zero => rfl
    | succ n => simpa using ih n (by simpa using h)

theorem get?_set_ne {α : Type u} (l : List α) (i j : Nat) (a : α) (h : j ≠ i) :
    (l.set i a).get? j = l.get? j := by
  induction l generalizing i j with
  | nil => rfl
  | cons x xs ih =>
    cases i with
    | zero =>
      cases j with
      | zero => exact absurd rfl h
      | succ m => rfl
    | succ n =>
      cases j with
      | zero => rfl
      | succ m => simpa using ih n m (fun hh => h (by rw [hh]))

theorem get?_set_cases {α : Type u} {l : List α} {t u : Nat} {a b : α} (ht : t < l.length)
    (h : (l.set t a).get? u = some b) : (u = t ∧ b = a) ∨ (u ≠ t ∧ l.get? u = some b) := by
  by_cases hut : u = t
  · subst hut
    rw [get?_set_self _ _ _ ht] at h
    exact Or.inl ⟨rfl, (Option.some.inj h).symm⟩
  · rw [get?_set_ne _ _ _ _ hut] at h
    exact Or.inr ⟨hut, h⟩

theorem key_ne_lockKey (k : String) : k ≠ k ++ ":lock" := by
  intro h
  have h1 := congrArg String.length h
  rw [String.length_append] at h1
  have h2 : (":lock" : String).length = 5 := rfl
  omega

theorem wrapped_ne_cause (c : String) (e : CErr) : CErr.wrapped c e ≠ e := by
  induction e with
  | fetchErr m => exact fun h => CErr.noConfusion h
  | simpleErr m => exact fun h => CErr.noConfusion h
  | wrapped c2 e2 ih =>
    intro h
    injection h with h1 h2
    subst h1
    exact ih h2

/-! ## C3: lock ownership -/

/-- C3: an extend or release step whose token does not match the stored owner
token leaves the lock cell (including its expiry) unchanged and replies 0;
release deletes the lock key if and only if the stored token matches, and
extend resets the expiry to the full TTL from now if and only if the stored
token matches. -/
theorem c3_lock_ownership :
    (∀ (lk : LockCell) (tok' : String), (∀ t e, lk = some (t, e) → t ≠ tok') →
      releaseScript lk tok' = (lk, 0) ∧
      ∀ now ttl, extendScript lk tok' now ttl = (lk, 0)) ∧
    (∀ (t : String) (e : Nat) (tok' : String),
      (releaseScript (some (t, e)) tok' = (none, 1) ↔ t = tok')) ∧
    (∀ (t : String) (e : Nat) (tok' : String) (now ttl : Nat),
      (extendScript (some (t, e)) tok' now ttl = (some (t, now + ttl), 1) ↔ t = tok')) := by
  refine ⟨?_, ?_, ?_⟩
  · intro lk tok' hmis
    cases lk with
    | none => exact ⟨rfl, fun now ttl => rfl⟩
    | some te =>
      obtain ⟨t, e⟩ := te
      have ht : t ≠ tok' := hmis t e rfl
      constructor
      · simp [releaseScript, ht]
      · intro now ttl
        simp [extendScript, ht]
  · intro t e tok'
    constructor
    · intro h
      by_contra ht
      simp [releaseScript, ht] at h
    · intro h
      simp [releaseScript, h]
  · intro t e tok' now ttl
    constructor
    · intro h
      by_contra ht
      simp [extendScript, ht] at h
    · intro h
      simp [extendScript, h]

/-! ## C5, C9, C10: hit path and memory-variant implicit behavior -/

/-- C5: a `GetOrFetch` call whose key is present returns the deserialized
stored value immediately without acquiring or mutating any lock/coordination
state: the sequential models return the store unchanged with zero fetches,
and in both concurrent models the hit step changes nothing but the caller's
own program counter (cache, lock, flight registration, results and fetch
count are untouched). -/
theorem c5_hit_path_lock_free :
    (∀ (T : Type) (enc : T → String) (dec : String → Option T) (ctxd : Nat → Bool)
        (key tok : String) (fo : Except CErr T)
        (snaps : List (RStore × RStore × RStore)) (store : RStore) (str : String) (v : T),
      store key = some str → dec str = some v →
        redisGetOrFetch enc dec ctxd key tok fo snaps store = (some (.ok v), store, 0)) ∧
    (∀ (T : Type) (ctx : Bool) (key : String) (ttl : Nat) (f : Bool → Except CErr T)
        (s : MemState T) (v : T) (t0 : Nat),
      s key = some (.typed v, t0) → memGetOrFetch ctx key ttl f s = (.ok v, s, 0)) ∧
    (∀ (T : Type) (fo : Nat → Except CErr T) (s : MSys T) (t : Nat) (v : T),
      s.pcs.get? t = some .start → s.cache = some v →
        mstep fo s t = { s with pcs := s.pcs.set t (.done (.ok v)) }) ∧
    (∀ (T : Type) (enc : T → String) (dec : String → Option T) (fo : Nat → Except CErr T)
        (ctxd : Nat → Bool) (s : RSys T) (t : Nat) (str : String),
      s.pcs.get? t = some .start → s.cval = some str →
        rstep enc dec fo ctxd s t = { s with pcs := s.pcs.set t (.done (decodeRes dec str)) }) := by
  refine ⟨?_, ?_, ?_, ?_⟩
  · intro T enc dec ctxd key tok fo snaps store str v h1 h2
    simp [redisGetOrFetch, h1, decodeRes, h2]
  · intro T ctx key ttl f s v t0 h
    simp [memGetOrFetch, h]
  · intro T fo s t v h1 h2
    unfold mstep
    rw [h1, h2]
  · intro T enc dec fo ctxd s t str h1 h2
    unfold rstep
    rw [h1, h2]

/-- Witness for C5 at concrete inputs. -/
theorem c5_hit_path_lock_free_witness :
    redisGetOrFetch (fun n : Nat => toString n) (fun s => if s = "5" then some 5 else none)
      (fun _ => false) "k" "tok" (.ok 9) [] (RStore.update RStore.empty "k" "5") =
      (some (.ok 5), RStore.update RStore.empty "k" "5", 0) ∧
    memGetOrFetch true "k" 60 (fun _ => .ok 7)
      (MemState.set (MemState.empty Nat) "k" (.typed 7) 60) =
      (.ok 7, MemState.set (MemState.empty Nat) "k" (.typed 7) 60, 0) ∧
    (mstep (fun _ => .ok 5) (⟨some 5, false, 0, fun _ => none, 0, [.start]⟩ : MSys Nat) 0).pcs =
      [.done (.ok 5)] ∧
    (rstep (fun n : Nat => toString n) (fun s => if s = "5" then some 5 else none)
      (fun _ => .ok 5) (fun _ => false)
      (⟨some "5", none, 0, [.start]⟩ : RSys Nat) 0).pcs = [.done (.ok 5)] := by
  refine ⟨?_, ?_, ?_, ?_⟩
  · exact c5_hit_path_lock_free.1 Nat _ _ _ "k" "tok" _ [] _ "5" 5 (by decide) (by decide)
  · exact c5_hit_path_lock_free.2.1 Nat true "k" 60 _ _ 7 60 (by decide)
  · rw [c5_hit_path_lock_free.2.2.1 Nat _ _ 0 5 (by decide) (by decide)]
    rfl
  · rw [c5_hit_path_lock_free.2.2.2 Nat _ _ _ _ _ 0 "5" (by decide) (by decide)]
    rfl

/-- C9: in the in-memory variant a cache hit returns the cached value with no
error regardless of the context's cancellation state (the hit path never
consults the context), and on a miss the context is observed only through
`fetchFn`, which is the sole consumer of the context in `GetOrFetch`. -/
theorem c9_mem_hit_ignores_context :
    ∀ (T : Type) (key : String) (ttl : Nat) (f : Bool → Except CErr T) (s : MemState T),
      (∀ (ctx : Bool) (v : T) (t0 : Nat), s key = some (.typed v, t0) →
        memGetOrFetch ctx key ttl f s = (.ok v, s, 0)) ∧
      (∀ ctx : Bool, s key = none →
        memGetOrFetch ctx key ttl f s =
          (match f ctx with
           | .ok w => (.ok w, s.set key (.typed w) ttl, 1)
           | .error e => (.error e, s, 1))) := by
  intro T key ttl f s
  constructor
  · intro ctx v t0 h
    simp [memGetOrFetch, h]
  · intro ctx h
    cases hf : f ctx with
    | ok w => simp [memGetOrFetch, h, hf]
    | error e => simp [memGetOrFetch, h, hf]

/-- Witness for C9: a hit with an already-cancelled context still returns the
value with no error, and on a miss the cancelled context reaches the fetch
function. -/
theorem c9_mem_hit_ignores_context_witness :
    memGetOrFetch true "k" 60 (fun ctx => if ctx then .error ctxCanceledErr else .ok 1)
      (MemState.set (MemState.empty Nat) "k" (.typed 7) 60) =
      (.ok 7, MemState.set (MemState.empty Nat) "k" (.typed 7) 60, 0) ∧
    (memGetOrFetch true "k" 60 (fun ctx => if ctx then .error ctxCanceledErr else .ok 1)
      (MemState.empty Nat)).1 = .error ctxCanceledErr := by
  constructor
  · exact (c9_mem_hit_ignores_context Nat "k" 60 _ _).1 true 7 60 (by decide)
  · rw [(c9_mem_hit_ignores_context Nat "k" 60 _ _).2 true (by decide)]
    rfl

/-- C10: in the in-memory variant a stored value of the wrong dynamic type is
treated as a miss: the hit-path assertion failure falls through to the
single-flight path, which re-invokes the fetch function exactly once and, on
success, overwrites the entry with the fetched value (a failed fetch leaves
the stale entry in place and propagates the error); and the call returns the
type-mismatch error only when the single-flight result itself fails the
assertion, which for the always-well-typed single-flight results here means
only when the fetch function itself produced that very error value. -/
theorem c10_wrong_type_treated_as_miss :
    ∀ (T : Type) (ctx : Bool) (key : String) (ttl : Nat) (f : Bool → Except CErr T)
      (s : MemState T) (tag : String) (t0 : Nat),
      s key = some (.other tag, t0) →
      (∀ w, f ctx = .ok w →
        memGetOrFetch ctx key ttl f s = (.ok w, s.set key (.typed w) ttl, 1)) ∧
      (∀ e, f ctx = .error e → memGetOrFetch ctx key ttl f s = (.error e, s, 1)) ∧
      ((memGetOrFetch ctx key ttl f s).1 = .error (typeMismatchErr key) →
        f ctx = .error (typeMismatchErr key)) := by
  intro T ctx key ttl f s tag t0 h
  refine ⟨?_, ?_, ?_⟩
  · intro w hf
    simp [memGetOrFetch, h, hf]
  · intro e hf
    simp [memGetOrFetch, h, hf]
  · intro hres
    cases hf : f ctx with
    | ok w => simp [memGetOrFetch, h, hf] at hres
    | error e => simp [memGetOrFetch, h, hf] at hres; rw [hres]

/-- Witness for C10: a `Nat` cacher whose entry holds a value of some other
runtime type refetches and overwrites on success, and propagates a fetch
error without producing the type-mismatch error. -/
theorem c10_wrong_type_treated_as_miss_witness :
    memGetOrFetch false "k" 60 (fun _ => .ok 3)
      (MemState.set (MemState.empty Nat) "k" (.other "string") 60) =
      (.ok 3, (MemState.set (MemState.empty Nat) "k" (.other "string") 60).set "k" (.typed 3) 60, 1) ∧
    memGetOrFetch false "k" 60 (fun _ => (.error (.fetchErr "boom") : Except CErr Nat))
      (MemState.set (MemState.empty Nat) "k" (.other "string") 60) =
      (.error (.fetchErr "boom"), MemState.set (MemState.empty Nat) "k" (.other "string") 60, 1) := by
  constructor
  · exact (c10_wrong_type_treated_as_miss Nat false "k" 60 _ _ "string" 60 (by decide)).1
      3 rfl
  · exact (c10_wrong_type_treated_as_miss Nat false "k" 60 _ _ "string" 60 (by decide)).2.1
      (.fetchErr "boom") rfl

/-! ## C4: the lock-vanished branch of waitForCache -/

/-- C4: in the wait/backoff loop, when the iteration's cache read misses and
the lock key no longer exists, the loop performs exactly one more cache read
(two reads in that iteration) and returns immediately without further
polling: the decoded value if that final read succeeds, otherwise the
dedicated "fetch operation failed or cache not populated" error, which is
distinct from the timeout and cancellation errors. -/
theorem c4_lock_vanished_one_more_read :
    ∀ (T : Type) (dec : String → Option T) (key lockKey : String) (ctxd : Nat → Bool)
      (dl : Nat) (s1 s2 s3 : RStore) (rest : List (RStore × RStore × RStore)) (now b : Nat),
      ctxd now = false → ¬ dl < now → s1 key = none → s2 lockKey = none →
      (waitLoop dec key lockKey ctxd dl ((s1, s2, s3) :: rest) now b).reads = 2 ∧
      (waitLoop dec key lockKey ctxd dl ((s1, s2, s3) :: rest) now b).sleeps = [] ∧
      (∀ str, s3 key = some str →
        (waitLoop dec key lockKey ctxd dl ((s1, s2, s3) :: rest) now b).res =
          some (decodeRes dec str)) ∧
      (s3 key = none →
        (waitLoop dec key lockKey ctxd dl ((s1, s2, s3) :: rest) now b).res =
          some (.error notPopulatedErr)) ∧
      notPopulatedErr ≠ timeoutErr ∧ notPopulatedErr ≠ ctxCanceledErr := by
  intro T dec key lockKey ctxd dl s1 s2 s3 rest now b h1 h2 h3 h4
  have hred : waitLoop dec key lockKey ctxd dl ((s1, s2, s3) :: rest) now b =
      (match s3 key with
       | some str => ⟨some (decodeRes dec str), [], 2⟩
       | none => ⟨some (.error notPopulatedErr), [], 2⟩) := by
    simp [waitLoop, h1, h2, h3, h4]
  refine ⟨?_, ?_, ?_, ?_, by decide, by decide⟩
  · rw [hred]; cases s3 key <;> rfl
  · rw [hred]; cases s3 key <;> rfl
  · intro str hstr; rw [hred, hstr]
  · intro hstr; rw [hred, hstr]

/-- Witness for C4: one run where the final read finds the value (the narrow
release/store-write window) and one where it does not. -/
theorem c4_lock_vanished_one_more_read_witness :
    (waitLoop (fun s => if s = "5" then some 5 else none) "k" "k:lock" (fun _ => false)
      30000 [(RStore.empty, RStore.empty, RStore.update RStore.empty "k" "5")] 0 10).res =
      some (.ok 5) ∧
    (waitLoop (fun s => if s = "5" then some (5 : Nat) else none) "k" "k:lock" (fun _ => false)
      30000 [(RStore.empty, RStore.empty, RStore.empty)] 0 10).res =
      some (.error notPopulatedErr) ∧
    (waitLoop (fun s => if s = "5" then some (5 : Nat) else none) "k" "k:lock" (fun _ => false)
      30000 [(RStore.empty, RStore.empty, RStore.empty)] 0 10).reads = 2 ∧
    (waitLoop (fun s => if s = "5" then some (5 : Nat) else none) "k" "k:lock" (fun _ => false)
      30000 [(RStore.empty, RStore.empty, RStore.empty)] 0 10).sleeps = [] := by
  have h1 := c4_lock_vanished_one_more_read Nat (fun s => if s = "5" then some 5 else none)
    "k" "k:lock" (fun _ => false) 30000 RStore.empty RStore.empty
    (RStore.update RStore.empty "k" "5") [] 0 10 rfl (by omega) (by decide) (by decide)
  have h2 := c4_lock_vanished_one_more_read Nat (fun s => if s = "5" then some 5 else none)
    "k" "k:lock" (fun _ => false) 30000 RStore.empty RStore.empty
    RStore.empty [] 0 10 rfl (by omega) (by decide) (by decide)
  refine ⟨?_, h2.2.2.2.1 (by decide), h2.1, h2.2.1⟩
  have := h1.2.2.1 "5" (by decide)
  rw [this]
  rfl

/-! ## C6: the backoff sequence -/

theorem bup_min (a : Nat) : bup (min a 500) = min (2 * a) 500 := by
  simp only [bup, Nat.min_def]
  split_ifs <;> omega

theorem bup_pow (k : Nat) : bup (min (10 * 2 ^ k) 500) = min (10 * 2 ^ (k + 1)) 500 := by
  rw [bup_min]
  congr 1
  rw [pow_succ]
  ring

/-- The interval slept on the i-th remaining iteration of `waitLoop`, when
entered with backoff `min (10 * 2^k) 500`, equals `min (10 * 2^(k+i)) 500`. -/
theorem waitLoop_sleeps_formula (T : Type) (dec : String → Option T) (key lockKey : String)
    (ctxd : Nat → Bool) (dl : Nat) :
    ∀ (snaps : List (RStore × RStore × RStore)) (now k i x : Nat),
      (waitLoop dec key lockKey ctxd dl snaps now (min (10 * 2 ^ k) 500)).sleeps.get? i =
        some x →
      x = min (10 * 2 ^ (k + i)) 500 := by
  intro snaps
  induction snaps with
  | nil => intro now k i x h; simp [waitLoop] at h
  | cons hd rest ih =>
    obtain ⟨s1, s2, s3⟩ := hd
    intro now k i x h
    cases h1 : ctxd now with
    | true => simp [waitLoop, h1] at h
    | false =>
      by_cases h2 : dl < now
      · simp [waitLoop, h1, h2] at h
      · cases hs1 : s1 key with
        | some str => simp [waitLoop, h1, h2, hs1] at h
        | none =>
          cases hs2 : s2 lockKey with
          | none =>
            cases hs3 : s3 key <;> simp [waitLoop, h1, h2, hs1, hs2, hs3] at h
          | some tk =>
            rw [waitLoop] at h
            simp only [h1, h2, hs1, hs2, Bool.false_eq_true, if_false, if_neg h2] at h
            cases i with
            | zero =>
              simp at h
              simpa using h.symm
            | succ m =>
              simp only [List.get?] at h
              rw [bup_pow] at h
              have hx := ih (now + min (10 * 2 ^ k) 500) (k + 1) m x h
              have hexp : k + 1 + m = k + (m + 1) := by omega
              rw [hx, hexp]

/-- C6: the wait/backoff loop, started as the source starts it (10ms initial
backoff, 500ms cap), sleeps `min (10·2^i, 500)` ms on its i-th iteration, so
the slept intervals are monotonically nondecreasing and never exceed 500ms. -/
theorem c6_backoff_schedule :
    ∀ (T : Type) (dec : String → Option T) (key lockKey : String) (ctxd : Nat → Bool)
      (timeout : Nat) (snaps : List (RStore × RStore × RStore)),
      (∀ i x, (waitForCache dec key lockKey ctxd timeout snaps).sleeps.get? i = some x →
        x = min (10 * 2 ^ i) 500) ∧
      (∀ i j x y, i ≤ j →
        (waitForCache dec key lockKey ctxd timeout snaps).sleeps.get? i = some x →
        (waitForCache dec key lockKey ctxd timeout snaps).sleeps.get? j = some y →
        x ≤ y) ∧
      (∀ i x, (waitForCache dec key lockKey ctxd timeout snaps).sleeps.get? i = some x →
        x ≤ 500) := by
  intro T dec key lockKey ctxd timeout snaps
  have hbase : ∀ i x,
      (waitForCache dec key lockKey ctxd timeout snaps).sleeps.get? i = some x →
      x = min (10 * 2 ^ i) 500 := by
    intro i x h
    have h10 : (10 : Nat) = min (10 * 2 ^ 0) 500 := by decide
    rw [waitForCache, h10] at h
    have := waitLoop_sleeps_formula T dec key lockKey ctxd timeout snaps 0 0 i x h
    simpa using this
  refine ⟨hbase, ?_, ?_⟩
  · intro i j x y hij hi hj
    rw [hbase i x hi, hbase j y hj]
    exact min_le_min (Nat.mul_le_mul_left 10 (Nat.pow_le_pow_right (by omega) hij)) le_rfl
  · intro i x hi
    rw [hbase i x hi]
    exact min_le_right _ _

/-- Witness for C6: a run with two sleeps (10 then 20 ms) against a store
whose lock stays held for two iterations. -/
theorem c6_backoff_schedule_witness :
    (waitForCache (fun s => if s = "5" then some (5 : Nat) else none) "k" "k:lock"
      (fun _ => false) 30000
      [(RStore.empty, RStore.update RStore.empty "k:lock" "t", RStore.empty),
       (RStore.empty, RStore.update RStore.empty "k:lock" "t", RStore.empty),
       (RStore.empty, RStore.empty, RStore.empty)]).sleeps.get? 1 = some 20 ∧
    (20 : Nat) = min (10 * 2 ^ 1) 500 ∧ (20 : Nat) ≤ 500 := by
  have hs : (waitForCache (fun s => if s = "5" then some (5 : Nat) else none) "k" "k:lock"
      (fun _ => false) 30000
      [(RStore.empty, RStore.update RStore.empty "k:lock" "t", RStore.empty),
       (RStore.empty, RStore.update RStore.empty "k:lock" "t", RStore.empty),
       (RStore.empty, RStore.empty, RStore.empty)]).sleeps.get? 1 = some 20 := by decide
  exact ⟨hs, (c6_backoff_schedule Nat (fun s => if s = "5" then some 5 else none) "k" "k:lock"
    (fun _ => false) 30000 _).1 1 20 hs,
    (c6_backoff_schedule Nat (fun s => if s = "5" then some 5 else none) "k" "k:lock"
    (fun _ => false) 30000 _).2.2 1 20 hs⟩

/-! ## C8: DeleteByPrefix under cancellation -/

theorem memLoop_uncancelled {T : Type} (done : Nat → Bool) (pre : String)
    (hd : ∀ j, done j = false) :
    ∀ (items : List String) (j cnt : Nat) (s : MemState T),
      (memDeleteByPrefixLoop done pre items j cnt s).1 =
        (cnt + (items.filter (fun k => startsWith pre k)).length, none) ∧
      (∀ x, (memDeleteByPrefixLoop done pre items j cnt s).2 x =
        if x ∈ items.filter (fun k => startsWith pre k) then none else s x) := by
  intro items
  induction items with
  | nil => intro j cnt s; simp [memDeleteByPrefixLoop]
  | cons k rest ih =>
    intro j cnt s
    cases hp : startsWith pre k with
    | true =>
      have h := ih (j + 1) (cnt + 1) (s.del k)
      constructor
      · rw [memDeleteByPrefixLoop]
        simp only [hd j, Bool.false_eq_true, if_false, hp, if_true]
        rw [h.1]
        simp [List.filter_cons, hp]
        omega
      · intro x
        rw [memDeleteByPrefixLoop]
        simp only [hd j, Bool.false_eq_true, if_false, hp, if_true]
        rw [h.2 x]
        simp only [List.filter_cons, hp, if_true, List.mem_cons]
        by_cases hx : x = k
        · subst hx
          by_cases hm : x ∈ rest.filter (fun k2 => startsWith pre k2) <;>
            simp [hm, MemState.del]
        · simp only [MemState.del, if_neg hx]
          by_cases hm : x ∈ rest.filter (fun k2 => startsWith pre k2) <;> simp [hm, hx]
    | false =>
      have h := ih (j + 1) cnt s
      constructor
      · rw [memDeleteByPrefixLoop]
        simp only [hd j, Bool.false_eq_true, if_false, hp]
        rw [h.1]
        simp [List.filter_cons, hp]
      · intro x
        rw [memDeleteByPrefixLoop]
        simp only [hd j, Bool.false_eq_true, if_false, hp]
        rw [h.2 x]
        simp [List.filter_cons, hp]

theorem memLoop_cancelled {T : Type} (done : Nat → Bool) (pre : String) :
    ∀ (items : List String) (m j cnt : Nat) (s : MemState T),
      m < items.length →
      (∀ i, i < m → done (j + i) = false) →
      done (j + m) = true →
      (memDeleteByPrefixLoop done pre items j cnt s).1 =
        (cnt + ((items.take m).filter (fun k => startsWith pre k)).length,
         some ctxCanceledErr) ∧
      (∀ x, (memDeleteByPrefixLoop done pre items j cnt s).2 x =
        if x ∈ (items.take m).filter (fun k => startsWith pre k) then none else s x) := by
  intro items
  induction items with
  | nil => intro m j cnt s hm; simp at hm
  | cons k rest ih =>
    intro m j cnt s hm hlo hhi
    cases m with
    | zero =>
      have hj : done j = true := by simpa using hhi
      rw [memDeleteByPrefixLoop]
      simp [hj]
    | succ m' =>
      have hj : done j = false := by simpa using hlo 0 (Nat.succ_pos m')
      have hlo' : ∀ i, i < m' → done (j + 1 + i) = false := by
        intro i hi
        have := hlo (i + 1) (by omega)
        have he : j + (i + 1) = j + 1 + i := by omega
        rwa [he] at this
      have hhi' : done (j + 1 + m') = true := by
        have he : j + (m' + 1) = j + 1 + m' := by omega
        rwa [he] at hhi
      have hm' : m' < rest.length := by simpa using hm
      cases hp : startsWith pre k with
      | true =>
        have h := ih m' (j + 1) (cnt + 1) (s.del k) hm' hlo' hhi'
        constructor
        · rw [memDeleteByPrefixLoop]
          simp only [hj, Bool.false_eq_true, if_false, hp, if_true]
          rw [h.1]
          simp [List.filter_cons, hp]
          omega
        · intro x
          rw [memDeleteByPrefixLoop]
          simp only [hj, Bool.false_eq_true, if_false, hp, if_true]
          rw [h.2 x]
          simp only [List.take_succ_cons, List.filter_cons, hp, if_true, List.mem_cons]
          by_cases hx : x = k
          · subst hx
            by_cases hm2 : x ∈ (rest.take m').filter (fun k2 => startsWith pre k2) <;>
              simp [hm2, MemState.del]
          · simp only [MemState.del, if_neg hx]
            by_cases hm2 : x ∈ (rest.take m').filter (fun k2 => startsWith pre k2) <;>
              simp [hm2, hx]
      | false =>
        have h := ih m' (j + 1) cnt s hm' hlo' hhi'
        constructor
        · rw [memDeleteByPrefixLoop]
          simp only [hj, Bool.false_eq_true, if_false, hp]
          rw [h.1]
          simp [List.filter_cons, hp]
        · intro x
          rw [memDeleteByPrefixLoop]
          simp only [hj, Bool.false_eq_true, if_false, hp]
          rw [h.2 x]
          simp [List.take_succ_cons, List.filter_cons, hp]

theorem scanLoop_uncancelled (done : Nat → Bool) (pre : String)
    (hd : ∀ j, done j = false) :
    ∀ (l : List String) (j : Nat) (acc : List String),
      redisScanLoop done pre l j acc =
        some (acc ++ l.filter (fun k => startsWith pre k)) := by
  intro l
  induction l with
  | nil => intro j acc; simp [redisScanLoop]
  | cons k rest ih =>
    intro j acc
    rw [redisScanLoop]
    simp only [hd j, Bool.false_eq_true, if_false]
    cases hp : startsWith pre k with
    | true => rw [ih]; simp [List.filter_cons, hp]
    | false => rw [ih]; simp [List.filter_cons, hp]

theorem scanLoop_cancelled (done : Nat → Bool) (pre : String) :
    ∀ (l : List String) (m j : Nat) (acc : List String),
      m < l.length →
      (∀ i, i < m → done (j + i) = false) →
      done (j + m) = true →
      redisScanLoop done pre l j acc = none := by
  intro l
  induction l with
  | nil => intro m j acc hm; simp at hm
  | cons k rest ih =>
    intro m j acc hm hlo hhi
    cases m with
    | zero =>
      have hj : done j = true := by simpa using hhi
      rw [redisScanLoop]
      simp [hj]
    | succ m' =>
      have hj : done j = false := by simpa using hlo 0 (Nat.succ_pos m')
      rw [redisScanLoop]
      simp only [hj, Bool.false_eq_true, if_false]
      refine ih m' (j + 1) _ (by simpa using hm) ?_ ?_
      · intro i hi
        have := hlo (i + 1) (by omega)
        have he : j + (i + 1) = j + 1 + i := by omega
        rwa [he] at this
      · have he : j + (m' + 1) = j + 1 + m' := by omega
        rwa [he] at hhi

theorem delKeys_spec :
    ∀ (keys : List String) (st : RStore), keys.Nodup →
      (∀ k, k ∈ keys → (st k).isSome = true) →
      (delKeys st keys).1 = keys.length ∧
      (∀ x, (delKeys st keys).2 x = if x ∈ keys then none else st x) := by
  intro keys
  induction keys with
  | nil => intro st _ _; simp [delKeys]
  | cons k rest ih =>
    intro st hnd hex
    have hk : (st k).isSome = true := hex k (List.mem_cons_self k rest)
    have hnd' : rest.Nodup := (List.nodup_cons.mp hnd).2
    have hknr : k ∉ rest := (List.nodup_cons.mp hnd).1
    have hex' : ∀ k2, k2 ∈ rest → ((st.erase k) k2).isSome = true := by
      intro k2 hk2
      have hne : k2 ≠ k := fun h => hknr (h ▸ hk2)
      simp only [RStore.erase, if_neg hne]
      exact hex k2 (List.mem_cons_of_mem k hk2)
    have h := ih (st.erase k) hnd' hex'
    constructor
    · rw [delKeys]
      simp only [hk, if_true]
      rw [h.1]
      simp only [List.length_cons]
      omega
    · intro x
      rw [delKeys]
      simp only [List.mem_cons]
      rw [h.2 x]
      by_cases hx : x = k
      · subst hx
        by_cases hm : x ∈ rest <;> simp [hm, RStore.erase]
      · by_cases hm : x ∈ rest <;> simp [hm, hx, RStore.erase]

/-- C8: `DeleteByPrefix` tolerates cancellation mid-scan, returning `ctx.Err()`
together with the number of keys already deleted at that point (in the memory
variant the matching keys among the items scanned so far; in the redis
variant 0, since its single batched `DEL` has not yet run), and an
uncancelled run deletes exactly the keys with the prefix and returns their
count. -/
theorem c8_delete_by_prefix_semantics :
    (∀ (T : Type) (done : Nat → Bool) (pre : String) (items : List String) (s : MemState T),
      (∀ j, done j = false) →
      (memDeleteByPrefix done pre items s).1 =
        ((items.filter (fun k => startsWith pre k)).length, none) ∧
      (∀ x, (memDeleteByPrefix done pre items s).2 x =
        if x ∈ items.filter (fun k => startsWith pre k) then none else s x)) ∧
    (∀ (T : Type) (done : Nat → Bool) (pre : String) (items : List String) (s : MemState T)
        (m : Nat),
      m < items.length → (∀ i, i < m → done i = false) → done m = true →
      (memDeleteByPrefix done pre items s).1 =
        (((items.take m).filter (fun k => startsWith pre k)).length, some ctxCanceledErr) ∧
      (∀ x, (memDeleteByPrefix done pre items s).2 x =
        if x ∈ (items.take m).filter (fun k => startsWith pre k) then none else s x)) ∧
    (∀ (done : Nat → Bool) (pre : String) (scanned : List String) (store : RStore),
      (∀ j, done j = false) → scanned.Nodup →
      (∀ k, k ∈ scanned → (store k).isSome = true) →
      (redisDeleteByPrefix done pre scanned store).1 =
        ((scanned.filter (fun k => startsWith pre k)).length, none) ∧
      (∀ x, (redisDeleteByPrefix done pre scanned store).2 x =
        if x ∈ scanned.filter (fun k => startsWith pre k) then none else store x)) ∧
    (∀ (done : Nat → Bool) (pre : String) (scanned : List String) (store : RStore) (m : Nat),
      m < scanned.length → (∀ i, i < m → done i = false) → done m = true →
      redisDeleteByPrefix done pre scanned store = ((0, some ctxCanceledErr), store)) := by
  refine ⟨?_, ?_, ?_, ?_⟩
  · intro T done pre items s hd
    have h := memLoop_uncancelled done pre hd items 0 0 s
    rw [memDeleteByPrefix]
    simp only [hd 0, Bool.false_eq_true, if_false]
    exact ⟨by rw [h.1]; simp, h.2⟩
  · intro T done pre items s m hm hlo hhi
    cases m with
    | zero =>
      rw [memDeleteByPrefix]
      simp [hhi]
    | succ m' =>
      have h0 : done 0 = false := hlo 0 (Nat.succ_pos m')
      have h := memLoop_cancelled done pre items (m' + 1) 0 0 s hm
        (by intro i hi; simpa using hlo i hi) (by simpa using hhi)
      rw [memDeleteByPrefix]
      simp only [h0, Bool.false_eq_true, if_false]
      exact ⟨by rw [h.1]; simp, h.2⟩
  · intro done pre scanned store hd hnd hex
    rw [redisDeleteByPrefix, scanLoop_uncancelled done pre hd scanned 0 []]
    simp only [List.nil_append]
    cases hf : scanned.filter (fun k => startsWith pre k) with
    | nil => simp [hf]
    | cons k rest =>
      have hnd2 : (scanned.filter (fun k2 => startsWith pre k2)).Nodup := hnd.filter _
      have hex2 : ∀ k2, k2 ∈ scanned.filter (fun k3 => startsWith pre k3) →
          (store k2).isSome = true := by
        intro k2 hk2
        exact hex k2 (List.mem_of_mem_filter hk2)
      have h := delKeys_spec (scanned.filter (fun k2 => startsWith pre k2)) store hnd2 hex2
      rw [hf] at h
      refine ⟨?_, ?_⟩
      · rw [h.1]
      · intro x
        rw [h.2 x]
  · intro done pre scanned store m hm hlo hhi
    rw [redisDeleteByPrefix, scanLoop_cancelled done pre scanned m 0 [] hm
      (by intro i hi; simpa using hlo i hi) (by simpa using hhi)]

/-- Witness for C8: the spec's prefix-deletion scenario (insert `u:1`, `u:2`,
`o:1`; delete prefix `u:` uncancelled, count 2, `o:1` survives) and a run
cancelled after one scanned item. -/
theorem c8_delete_by_prefix_semantics_witness :
    (memDeleteByPrefix (fun _ => false) "u:" ["u:1", "u:2", "o:1"]
      (((MemState.empty Nat).set "u:1" (.typed 1) 60).set "u:2" (.typed 2) 60 |>.set
        "o:1" (.typed 3) 60)).1 = (2, none) ∧
    (memDeleteByPrefix (fun _ => false) "u:" ["u:1", "u:2", "o:1"]
      (((MemState.empty Nat).set "u:1" (.typed 1) 60).set "u:2" (.typed 2) 60 |>.set
        "o:1" (.typed 3) 60)).2 "u:1" = none ∧
    (memDeleteByPrefix (fun _ => false) "u:" ["u:1", "u:2", "o:1"]
      (((MemState.empty Nat).set "u:1" (.typed 1) 60).set "u:2" (.typed 2) 60 |>.set
        "o:1" (.typed 3) 60)).2 "o:1" = some (.typed 3, 60) ∧
    (memDeleteByPrefix (fun i => decide (1 ≤ i)) "u:" ["u:1", "u:2"]
      (((MemState.empty Nat).set "u:1" (.typed 1) 60).set "u:2" (.typed 2) 60)).1 =
      (1, some ctxCanceledErr) ∧
    (redisDeleteByPrefix (fun _ => false) "u:" ["u:1", "u:2", "o:1"]
      (((RStore.empty.update "u:1" "1").update "u:2" "2").update "o:1" "3")).1 =
      (2, none) ∧
    redisDeleteByPrefix (fun i => decide (1 ≤ i)) "u:" ["u:1", "u:2"]
      ((RStore.empty.update "u:1" "1").update "u:2" "2") =
      ((0, some ctxCanceledErr), (RStore.empty.update "u:1" "1").update "u:2" "2") := by
  refine ⟨?_, ?_, ?_, ?_, ?_, ?_⟩
  · rw [(c8_delete_by_prefix_semantics.1 Nat (fun _ => false) "u:" ["u:1", "u:2", "o:1"] _
      (fun _ => rfl)).1]
    decide
  · rw [(c8_delete_by_prefix_semantics.1 Nat (fun _ => false) "u:" ["u:1", "u:2", "o:1"] _
      (fun _ => rfl)).2 "u:1"]
    decide
  · rw [(c8_delete_by_prefix_semantics.1 Nat (fun _ => false) "u:" ["u:1", "u:2", "o:1"] _
      (fun _ => rfl)).2 "o:1"]
    decide
  · rw [(c8_delete_by_prefix_semantics.2.1 Nat (fun i => decide (1 ≤ i)) "u:" ["u:1", "u:2"] _ 1
      (by decide) (by decide) (by decide)).1]
    decide
  · rw [(c8_delete_by_prefix_semantics.2.2.1 (fun _ => false) "u:" ["u:1", "u:2", "o:1"] _
      (fun _ => rfl) (by decide) (by decide)).1]
    decide
  · exact c8_delete_by_prefix_semantics.2.2.2 (fun i => decide (1 ≤ i)) "u:" ["u:1", "u:2"] _ 1
      (by decide) (by decide) (by decide)

/-! ## C7, C2: fetch-error propagation and the failure path -/

/-- The redis winner path with a failing fetch, fully evaluated: no cache
write, the lock acquired then released by the deferred ownership-checked
script, the wrapped fetch error returned, one fetch invocation. -/
theorem redis_fail_winner {T : Type} (enc : T → String) (dec : String → Option T)
    (ctxd : Nat → Bool) (key tok : String) (e : CErr)
    (snaps : List (RStore × RStore × RStore)) (store : RStore)
    (hkey : store key = none) (hlock : store (key ++ ":lock") = none) :
    redisGetOrFetch enc dec ctxd key tok (.error e) snaps store =
      (some (.error (fetchFailed e)), store.erase (key ++ ":lock"), 1) := by
  have hrel : releaseOn (store.update (key ++ ":lock") tok) (key ++ ":lock") tok =
      ((store.update (key ++ ":lock") tok).erase (key ++ ":lock"), 1) := by
    simp [releaseOn, RStore.update]
  have hst : (store.update (key ++ ":lock") tok).erase (key ++ ":lock") =
      store.erase (key ++ ":lock") := by
    funext x
    simp only [RStore.erase, RStore.update]
    by_cases hx : x = key ++ ":lock" <;> simp [hx]
  simp [redisGetOrFetch, hkey, hlock, hrel, hst]

/-- C7 counterexample: in the redis variant the error returned by
`GetOrFetch` when the fetch function fails is the fetch error wrapped with
"fetch function failed" context, not the very error the function returned,
refuting verbatim propagation for that variant. -/
theorem c7_verbatim_counterexample :
    (redisGetOrFetch (fun n : Nat => toString n) (fun _ => none) (fun _ => false)
        "k" "tok" (.error (.fetchErr "boom")) [] RStore.empty).1 =
      some (.error (.wrapped "fetch function failed" (.fetchErr "boom"))) ∧
    (redisGetOrFetch (fun n : Nat => toString n) (fun _ => none) (fun _ => false)
        "k" "tok" (.error (.fetchErr "boom")) [] RStore.empty).1 ≠
      some (.error (.fetchErr "boom")) := by
  constructor
  · decide
  · decide

/-- C7 (amended): the in-memory variant propagates fetch errors verbatim,
while the redis variant returns the fetch error wrapped with "fetch function
failed" context — never the identical error value, since wrapping an error
always yields a different value, though the original is preserved as the
wrapped cause. -/
theorem c7_fetch_error_propagation :
    (∀ (T : Type) (ctx : Bool) (key : String) (ttl : Nat) (f : Bool → Except CErr T)
        (s : MemState T) (e : CErr), s key = none → f ctx = .error e →
      (memGetOrFetch ctx key ttl f s).1 = .error e) ∧
    (∀ (T : Type) (enc : T → String) (dec : String → Option T) (ctxd : Nat → Bool)
        (key tok : String) (e : CErr) (snaps : List (RStore × RStore × RStore)) (store : RStore),
      store key = none → store (key ++ ":lock") = none →
      (redisGetOrFetch enc dec ctxd key tok (.error e) snaps store).1 =
        some (.error (.wrapped "fetch function failed" e))) ∧
    (∀ e : CErr, CErr.wrapped "fetch function failed" e ≠ e) := by
  refine ⟨?_, ?_, fun e => wrapped_ne_cause _ e⟩
  · intro T ctx key ttl f s e h hf
    simp [memGetOrFetch, h, hf]
  · intro T enc dec ctxd key tok e snaps store hkey hlock
    rw [redis_fail_winner enc dec ctxd key tok e snaps store hkey hlock]
    rfl

/-- Witness for the amended C7 at concrete inputs. -/
theorem c7_fetch_error_propagation_witness :
    (memGetOrFetch false "k" 60 (fun _ => (.error (.fetchErr "boom") : Except CErr Nat))
      (MemState.empty Nat)).1 = .error (.fetchErr "boom") ∧
    (redisGetOrFetch (fun n : Nat => toString n) (fun _ => none) (fun _ => false)
        "k2" "tok" (.error (.fetchErr "oops")) [] RStore.empty).1 =
      some (.error (.wrapped "fetch function failed" (.fetchErr "oops"))) ∧
    CErr.wrapped "fetch function failed" (.fetchErr "oops") ≠ .fetchErr "oops" := by
  refine ⟨?_, ?_, ?_⟩
  · exact c7_fetch_error_propagation.1 Nat false "k" 60 _ _ (.fetchErr "boom") (by decide) rfl
  · exact c7_fetch_error_propagation.2.1 Nat _ _ _ "k2" "tok" (.fetchErr "oops") [] _
      (by decide) (by decide)
  · exact c7_fetch_error_propagation.2.2 (.fetchErr "oops")

/-- C2: a failed fetch populates nothing: in both variants the key remains
absent from the store, the fetch's error is propagated (verbatim in the
memory variant, wrapped in the redis variant), the coordination state is
released (the redis lock key is deleted by the deferred script; the
singleflight registration lives only inside the call), and a subsequent
`GetOrFetch` for the same key invokes its fetch function again. -/
theorem c2_failed_fetch_not_cached :
    (∀ (T : Type) (ctx : Bool) (key : String) (ttl : Nat) (f : Bool → Except CErr T)
        (s : MemState T) (e : CErr), s key = none → f ctx = .error e →
      memGetOrFetch ctx key ttl f s = (.error e, s, 1) ∧
      (memGetOrFetch ctx key ttl f (memGetOrFetch ctx key ttl f s).2.1).2.2 = 1) ∧
    (∀ (T : Type) (enc : T → String) (dec : String → Option T) (ctxd : Nat → Bool)
        (key tok tok2 : String) (e : CErr)
        (snaps snaps2 : List (RStore × RStore × RStore)) (store : RStore),
      store key = none → store (key ++ ":lock") = none →
      (redisGetOrFetch enc dec ctxd key tok (.error e) snaps store).1 =
        some (.error (fetchFailed e)) ∧
      (redisGetOrFetch enc dec ctxd key tok (.error e) snaps store).2.1 key = none ∧
      (redisGetOrFetch enc dec ctxd key tok (.error e) snaps store).2.1 (key ++ ":lock") = none ∧
      (redisGetOrFetch enc dec ctxd key tok (.error e) snaps store).2.2 = 1 ∧
      (redisGetOrFetch enc dec ctxd key tok2 (.error e) snaps2
        (redisGetOrFetch enc dec ctxd key tok (.error e) snaps store).2.1).2.2 = 1) := by
  constructor
  · intro T ctx key ttl f s e h hf
    have hone : memGetOrFetch ctx key ttl f s = (.error e, s, 1) := by
      simp [memGetOrFetch, h, hf]
    refine ⟨hone, ?_⟩
    rw [hone]
    exact congrArg (fun p => p.2.2) hone
  · intro T enc dec ctxd key tok tok2 e snaps snaps2 store hkey hlock
    have hone := redis_fail_winner enc dec ctxd key tok e snaps store hkey hlock
    have hkey2 : (store.erase (key ++ ":lock")) key = none := by
      simp only [RStore.erase]
      rw [if_neg (key_ne_lockKey key)]
      exact hkey
    have hlock2 : (store.erase (key ++ ":lock")) (key ++ ":lock") = none := by
      simp [RStore.erase]
    refine ⟨?_, ?_, ?_, ?_, ?_⟩
    · rw [hone]
    · rw [hone]; exact hkey2
    · rw [hone]; exact hlock2
    · rw [hone]
    · rw [hone]
      rw [redis_fail_winner enc dec ctxd key tok2 e snaps2 _ hkey2 hlock2]

/-- Witness for C2 at concrete inputs. -/
theorem c2_failed_fetch_not_cached_witness :
    memGetOrFetch false "k" 60 (fun _ => (.error (.fetchErr "boom") : Except CErr Nat))
      (MemState.empty Nat) = (.error (.fetchErr "boom"), MemState.empty Nat, 1) ∧
    (redisGetOrFetch (fun n : Nat => toString n) (fun _ => none) (fun _ => false)
        "k" "t1" (.error (.fetchErr "boom")) [] RStore.empty).2.1 "k" = none ∧
    (redisGetOrFetch (fun n : Nat => toString n) (fun _ => none) (fun _ => false)
        "k" "t1" (.error (.fetchErr "boom")) [] RStore.empty).2.1 ("k" ++ ":lock") = none ∧
    (redisGetOrFetch (fun n : Nat => toString n) (fun _ => none) (fun _ => false)
        "k" "t2" (.error (.fetchErr "boom")) []
        (redisGetOrFetch (fun n : Nat => toString n) (fun _ => none) (fun _ => false)
          "k" "t1" (.error (.fetchErr "boom")) [] RStore.empty).2.1).2.2 = 1 := by
  have h := c2_failed_fetch_not_cached.2 Nat (fun n : Nat => toString n) (fun _ => none)
    (fun _ => false) "k" "t1" "t2" (.fetchErr "boom") [] [] RStore.empty (by decide) (by decide)
  exact ⟨(c2_failed_fetch_not_cached.1 Nat false "k" 60 _ _ (.fetchErr "boom")
    (by decide) rfl).1, h.2.1, h.2.2.1, h.2.2.2.2⟩

/-- Witness for C3: a stale owner's release after a second owner re-acquired
(tokens "1" and "2") is a no-op, while the matching owner's release deletes
and the matching owner's extend resets the expiry. -/
theorem c3_lock_ownership_witness :
    releaseScript (some ("2", 700)) "1" = (some ("2", 700), 0) ∧
    extendScript (some ("2", 700)) "1" 900 30000 = (some ("2", 700), 0) ∧
    releaseScript (some ("2", 700)) "2" = (none, 1) ∧
    extendScript (some ("2", 700)) "2" 900 30000 = (some ("2", 900 + 30000), 1) := by
  refine ⟨?_, ?_, ?_, ?_⟩
  · exact (c3_lock_ownership.1 (some ("2", 700)) "1"
      (by intro t e h; injection h with h1; rw [show t = "2" from congrArg Prod.fst h1.symm]; decide)).1
  · exact (c3_lock_ownership.1 (some ("2", 700)) "1"
      (by intro t e h; injection h with h1; rw [show t = "2" from congrArg Prod.fst h1.symm]; decide)).2 900 30000
  · exact (c3_lock_ownership.2.1 "2" 700 "2").mpr rfl
  · exact (c3_lock_ownership.2.2 "2" 700 "2" 900 30000).mpr rfl

/-! ## C1: the single-flight race -/

theorem memSuccInv_setPc {T : Type} {v : T} {s : MSys T} (h : MemSuccInv v s)
    {t : Nat} {pcOld : MPc T} (hpcT : s.pcs.get? t = some pcOld)
    (hOldNotStore : ∀ fid w, pcOld ≠ .mstore fid w)
    {pcNew : MPc T}
    (hEarly : s.fetchCount = 0 → pcNew.isEarly = true)
    (hOwnerA : pcNew.isOwner = true → s.flightActive = true)
    (hOwnerU : pcNew.isOwner = true → pcOld.isOwner = true)
    (hFetch : ∀ fid, pcNew = .mfetch fid → s.fetchCount = 0)
    (hStore : ∀ fid w, pcNew = .mstore fid w → w = v)
    (hPub : ∀ fid r, pcNew = .publish fid r → r = .ok v)
    (hDone : ∀ r, pcNew = .done r → r = .ok v) :
    MemSuccInv v { s with pcs := s.pcs.set t pcNew } := by
  have hlen : t < s.pcs.length := get?_some_lt hpcT
  refine ⟨h.countLe, h.coldCache, h.coldRes, ?_, h.cacheVal, ?_, ?_, ?_, ?_, ?_, ?_,
    h.resVal, ?_⟩
  · intro h0 u pcu hu
    rcases get?_set_cases hlen hu with ⟨rfl, rfl⟩ | ⟨_, hu2⟩
    · exact hEarly h0
    · exact h.coldPcs h0 u pcu hu2
  · intro u pcu hu hown
    rcases get?_set_cases hlen hu with ⟨rfl, rfl⟩ | ⟨_, hu2⟩
    · exact hOwnerA hown
    · exact h.ownerActive u pcu hu2 hown
  · intro t1 t2 pc1 pc2 h1 h2 ho1 ho2
    rcases get?_set_cases hlen h1 with ⟨he1, hb1⟩ | ⟨hne1, h1b⟩ <;>
      rcases get?_set_cases hlen h2 with ⟨he2, hb2⟩ | ⟨hne2, h2b⟩
    · rw [he1, he2]
    · rw [he1]
      exact h.ownerUniq t t2 pcOld pc2 hpcT h2b (hOwnerU (hb1 ▸ ho1)) ho2
    · rw [he2]
      exact h.ownerUniq t1 t pc1 pcOld h1b hpcT ho1 (hOwnerU (hb2 ▸ ho2))
    · exact h.ownerUniq t1 t2 pc1 pc2 h1b h2b ho1 ho2
  · intro u fid hu
    rcases get?_set_cases hlen hu with ⟨rfl, hb⟩ | ⟨_, hu2⟩
    · exact hFetch fid hb.symm
    · exact h.fetchCold u fid hu2
  · intro h1
    rcases h.oneProgress h1 with hcv | ⟨u, fid, hu⟩
    · exact Or.inl hcv
    · by_cases hut : u = t
      · subst hut
        rw [hpcT] at hu
        exact absurd (Option.some.inj hu) (hOldNotStore fid v)
      · refine Or.inr ⟨u, fid, ?_⟩
        rw [get?_set_ne _ _ _ _ hut]
        exact hu
  · intro u fid w hu
    rcases get?_set_cases hlen hu with ⟨rfl, hb⟩ | ⟨_, hu2⟩
    · exact hStore fid w hb.symm
    · exact h.storeVal u fid w hu2
  · intro u fid r hu
    rcases get?_set_cases hlen hu with ⟨rfl, hb⟩ | ⟨_, hu2⟩
    · exact hPub fid r hb.symm
    · exact h.pubVal u fid r hu2
  · intro u r hu
    rcases get?_set_cases hlen hu with ⟨rfl, hb⟩ | ⟨_, hu2⟩
    · exact hDone r hb.symm
    · exact h.doneVal u r hu2

theorem memSuccInv_step {T : Type} {fo : Nat → Except CErr T} {v : T} {s : MSys T}
    (hfo : fo 0 = .ok v) (h : MemSuccInv v s) (t : Nat) :
    MemSuccInv v (mstep fo s t) := by
  cases hpc : s.pcs.get? t with
  | none =>
    have hstep : mstep fo s t = s := by unfold mstep; rw [hpc]
    rw [hstep]; exact h
  | some pc =>
    have hlen : t < s.pcs.length := get?_some_lt hpc
    cases pc with
    | start =>
      cases hc : s.cache with
      | some w =>
        have hw : w = v := h.cacheVal w hc
        have hstep : mstep fo s t = { s with pcs := s.pcs.set t (.done (.ok w)) } := by
          unfold mstep; rw [hpc, hc]
        rw [hstep]
        refine memSuccInv_setPc h hpc (by intro fid w2 hh; cases hh) ?_ ?_ ?_ ?_ ?_ ?_ ?_
        · intro h0
          rw [h.coldCache h0] at hc
          cases hc
        · intro hh; cases hh
        · intro hh; cases hh
        · intro fid hh; cases hh
        · intro fid w2 hh; cases hh
        · intro fid r hh; cases hh
        · intro r hh
          cases hh
          rw [hw]
      | none =>
        have hstep : mstep fo s t = { s with pcs := s.pcs.set t .enter } := by
          unfold mstep; rw [hpc, hc]
        rw [hstep]
        refine memSuccInv_setPc h hpc (by intro fid w2 hh; cases hh) ?_ ?_ ?_ ?_ ?_ ?_ ?_
        · intro _; rfl
        · intro hh; cases hh
        · intro hh; cases hh
        · intro fid hh; cases hh
        · intro fid w2 hh; cases hh
        · intro fid r hh; cases hh
        · intro r hh; cases hh
    | enter =>
      cases hfa : s.flightActive with
      | true =>
        have hstep : mstep fo s t =
            { s with pcs := s.pcs.set t (.waitres (s.flightId - 1)) } := by
          unfold mstep; rw [hpc, hfa]; rfl
        rw [hstep]
        refine memSuccInv_setPc h hpc (by intro fid w2 hh; cases hh) ?_ ?_ ?_ ?_ ?_ ?_ ?_
        · intro _; rfl
        · intro hh; cases hh
        · intro hh; cases hh
        · intro fid hh; cases hh
        · intro fid w2 hh; cases hh
        · intro fid r hh; cases hh
        · intro r hh; cases hh
      | false =>
        have hstep : mstep fo s t =
            { s with flightActive := true, flightId := s.flightId + 1,
                     pcs := s.pcs.set t (.check s.flightId) } := by
          unfold mstep; rw [hpc, hfa]; rfl
        rw [hstep]
        refine ⟨h.countLe, h.coldCache, h.coldRes, ?_, h.cacheVal, ?_, ?_, ?_, ?_, ?_, ?_,
          h.resVal, ?_⟩
        · intro h0 u pcu hu
          rcases get?_set_cases hlen hu with ⟨rfl, rfl⟩ | ⟨_, hu2⟩
          · rfl
          · exact h.coldPcs h0 u pcu hu2
        · intro u pcu hu hown; rfl
        · intro t1 t2 pc1 pc2 h1 h2 ho1 ho2
          rcases get?_set_cases hlen h1 with ⟨he1, hb1⟩ | ⟨hne1, h1b⟩ <;>
            rcases get?_set_cases hlen h2 with ⟨he2, hb2⟩ | ⟨hne2, h2b⟩
          · rw [he1, he2]
          · exact absurd (h.ownerActive t2 pc2 h2b ho2) (by rw [hfa]; intro hh; cases hh)
          · exact absurd (h.ownerActive t1 pc1 h1b ho1) (by rw [hfa]; intro hh; cases hh)
          · exact h.ownerUniq t1 t2 pc1 pc2 h1b h2b ho1 ho2
        · intro u fid hu
          rcases get?_set_cases hlen hu with ⟨rfl, hb⟩ | ⟨_, hu2⟩
          · cases hb
          · exact h.fetchCold u fid hu2
        · intro h1
          rcases h.oneProgress h1 with hcv | ⟨u, fid, hu⟩
          · exact Or.inl hcv
          · by_cases hut : u = t
            · subst hut; rw [hpc] at hu; cases Option.some.inj hu
            · refine Or.inr ⟨u, fid, ?_⟩
              rw [get?_set_ne _ _ _ _ hut]
              exact hu
        · intro u fid w hu
          rcases get?_set_cases hlen hu with ⟨rfl, hb⟩ | ⟨_, hu2⟩
          · cases hb
          · exact h.storeVal u fid w hu2
        · intro u fid r hu
          rcases get?_set_cases hlen hu with ⟨rfl, hb⟩ | ⟨_, hu2⟩
          · cases hb
          · exact h.pubVal u fid r hu2
        · intro u r hu
          rcases get?_set_cases hlen hu with ⟨rfl, hb⟩ | ⟨_, hu2⟩
          · cases hb
          · exact h.doneVal u r hu2
    | check fid =>
      cases hc : s.cache with
      | some w =>
        have hw : w = v := h.cacheVal w hc
        have hstep : mstep fo s t =
            { s with pcs := s.pcs.set t (.publish fid (.ok w)) } := by
          unfold mstep; rw [hpc, hc]
        rw [hstep]
        refine memSuccInv_setPc h hpc (by intro fid2 w2 hh; cases hh) ?_ ?_ ?_ ?_ ?_ ?_ ?_
        · intro h0
          rw [h.coldCache h0] at hc
          cases hc
        · intro _
          exact h.ownerActive t (.check fid) hpc rfl
        · intro _; rfl
        · intro fid2 hh; cases hh
        · intro fid2 w2 hh; cases hh
        · intro fid2 r hh
          cases hh
          rw [hw]
        · intro r hh; cases hh
      | none =>
        have hcount0 : s.fetchCount = 0 := by
          rcases Nat.lt_or_ge s.fetchCount 1 with h1 | h1
          · omega
          · have h1' : s.fetchCount = 1 := le_antisymm h.countLe h1
            rcases h.oneProgress h1' with hcv | ⟨u, fid2, hu⟩
            · rw [hc] at hcv; cases hcv
            · have := h.ownerUniq u t (.mstore fid2 v) (.check fid) hu hpc rfl rfl
              subst this
              rw [hpc] at hu
              cases Option.some.inj hu
        have hstep : mstep fo s t = { s with pcs := s.pcs.set t (.mfetch fid) } := by
          unfold mstep; rw [hpc, hc]
        rw [hstep]
        refine memSuccInv_setPc h hpc (by intro fid2 w2 hh; cases hh) ?_ ?_ ?_ ?_ ?_ ?_ ?_
        · intro _; rfl
        · intro _
          exact h.ownerActive t (.check fid) hpc rfl
        · intro _; rfl
        · intro fid2 _
          exact hcount0
        · intro fid2 w2 hh; cases hh
        · intro fid2 r hh; cases hh
        · intro r hh; cases hh
    | mfetch fid =>
      have hc0 : s.fetchCount = 0 := h.fetchCold t fid hpc
      have hstep : mstep fo s t =
          { s with fetchCount := s.fetchCount + 1, pcs := s.pcs.set t (.mstore fid v) } := by
        unfold mstep
        rw [hpc, show fo s.fetchCount = .ok v by rw [hc0, hfo]]
      rw [hstep]
      refine ⟨show s.fetchCount + 1 ≤ 1 by omega,
        fun h0 => absurd (show s.fetchCount + 1 = 0 from h0) (by omega),
        fun h0 => absurd (show s.fetchCount + 1 = 0 from h0) (by omega),
        fun h0 => absurd (show s.fetchCount + 1 = 0 from h0) (by omega),
        h.cacheVal, ?_, ?_, ?_, ?_, ?_, ?_, h.resVal, ?_⟩
      · intro u pcu hu hown
        rcases get?_set_cases hlen hu with ⟨he, hb⟩ | ⟨_, hu2⟩
        · exact h.ownerActive t (.mfetch fid) hpc rfl
        · exact h.ownerActive u pcu hu2 hown
      · intro t1 t2 pc1 pc2 h1 h2 ho1 ho2
        rcases get?_set_cases hlen h1 with ⟨he1, hb1⟩ | ⟨hne1, h1b⟩ <;>
          rcases get?_set_cases hlen h2 with ⟨he2, hb2⟩ | ⟨hne2, h2b⟩
        · rw [he1, he2]
        · rw [he1]
          exact h.ownerUniq t t2 (.mfetch fid) pc2 hpc h2b rfl ho2
        · rw [he2]
          exact h.ownerUniq t1 t pc1 (.mfetch fid) h1b hpc ho1 rfl
        · exact h.ownerUniq t1 t2 pc1 pc2 h1b h2b ho1 ho2
      · intro u fid2 hu
        rcases get?_set_cases hlen hu with ⟨rfl, hb⟩ | ⟨hne, hu2⟩
        · cases hb
        · exact absurd (h.ownerUniq u t (.mfetch fid2) (.mfetch fid) hu2 hpc rfl rfl) hne
      · intro _
        refine Or.inr ⟨t, fid, ?_⟩
        exact get?_set_self _ _ _ hlen
      · intro u fid2 w hu
        rcases get?_set_cases hlen hu with ⟨rfl, hb⟩ | ⟨_, hu2⟩
        · cases hb; rfl
        · exact h.storeVal u fid2 w hu2
      · intro u fid2 r hu
        rcases get?_set_cases hlen hu with ⟨rfl, hb⟩ | ⟨_, hu2⟩
        · cases hb
        · exact h.pubVal u fid2 r hu2
      · intro u r hu
        rcases get?_set_cases hlen hu with ⟨rfl, hb⟩ | ⟨_, hu2⟩
        · cases hb
        · exact h.doneVal u r hu2
    | mstore fid w =>
      have hw : w = v := h.storeVal t fid w hpc
      have hstep : mstep fo s t =
          { s with cache := some w, pcs := s.pcs.set t (.publish fid (.ok w)) } := by
        unfold mstep; rw [hpc]
      rw [hstep]
      have hnotcold : s.fetchCount ≠ 0 := by
        intro h0
        have := h.coldPcs h0 t (.mstore fid w) hpc
        cases this
      refine ⟨h.countLe, by intro h0; exact absurd h0 hnotcold, ?_, ?_, ?_, ?_, ?_, ?_, ?_,
        ?_, ?_, h.resVal, ?_⟩
      · intro h0; exact absurd h0 hnotcold
      · intro h0; exact absurd h0 hnotcold
      · intro w2 hw2
        exact ((Option.some.inj hw2).symm).trans hw
      · intro u pcu hu hown
        rcases get?_set_cases hlen hu with ⟨he, hb⟩ | ⟨_, hu2⟩
        · exact h.ownerActive t (.mstore fid w) hpc rfl
        · exact h.ownerActive u pcu hu2 hown
      · intro t1 t2 pc1 pc2 h1 h2 ho1 ho2
        rcases get?_set_cases hlen h1 with ⟨he1, hb1⟩ | ⟨hne1, h1b⟩ <;>
          rcases get?_set_cases hlen h2 with ⟨he2, hb2⟩ | ⟨hne2, h2b⟩
        · rw [he1, he2]
        · rw [he1]
          exact h.ownerUniq t t2 (.mstore fid w) pc2 hpc h2b rfl ho2
        · rw [he2]
          exact h.ownerUniq t1 t pc1 (.mstore fid w) h1b hpc ho1 rfl
        · exact h.ownerUniq t1 t2 pc1 pc2 h1b h2b ho1 ho2
      · intro u fid2 hu
        rcases get?_set_cases hlen hu with ⟨rfl, hb⟩ | ⟨_, hu2⟩
        · cases hb
        · exact absurd (h.fetchCold u fid2 hu2) hnotcold
      · intro _
        rw [hw]
        exact Or.inl rfl
      · intro u fid2 w2 hu
        rcases get?_set_cases hlen hu with ⟨rfl, hb⟩ | ⟨_, hu2⟩
        · cases hb
        · exact h.storeVal u fid2 w2 hu2
      · intro u fid2 r hu
        rcases get?_set_cases hlen hu with ⟨rfl, hb⟩ | ⟨_, hu2⟩
        · cases hb
          rw [hw]
        · exact h.pubVal u fid2 r hu2
      · intro u r hu
        rcases get?_set_cases hlen hu with ⟨rfl, hb⟩ | ⟨_, hu2⟩
        · cases hb
        · exact h.doneVal u r hu2
    | publish fid r =>
      have hr : r = .ok v := h.pubVal t fid r hpc
      have hstep : mstep fo s t =
          { s with flightActive := false, results := fupd s.results fid r,
                   pcs := s.pcs.set t (.done r) } := by
        unfold mstep; rw [hpc]
      rw [hstep]
      have hnotcold : s.fetchCount ≠ 0 := by
        intro h0
        have := h.coldPcs h0 t (.publish fid r) hpc
        cases this
      refine ⟨h.countLe, h.coldCache, ?_, ?_, h.cacheVal, ?_, ?_, ?_, ?_, ?_, ?_, ?_, ?_⟩
      · intro h0; exact absurd h0 hnotcold
      · intro h0; exact absurd h0 hnotcold
      · intro u pcu hu hown
        rcases get?_set_cases hlen hu with ⟨he, hb⟩ | ⟨hne, hu2⟩
        · exact absurd (hb ▸ hown) (by simp [MPc.isOwner])
        · exact absurd (h.ownerUniq u t pcu (.publish fid r) hu2 hpc hown rfl) hne
      · intro t1 t2 pc1 pc2 h1 h2 ho1 ho2
        rcases get?_set_cases hlen h1 with ⟨he1, hb1⟩ | ⟨hne1, h1b⟩ <;>
          rcases get?_set_cases hlen h2 with ⟨he2, hb2⟩ | ⟨hne2, h2b⟩
        · rw [he1, he2]
        · exact absurd (hb1 ▸ ho1) (by simp [MPc.isOwner])
        · exact absurd (hb2 ▸ ho2) (by simp [MPc.isOwner])
        · exact h.ownerUniq t1 t2 pc1 pc2 h1b h2b ho1 ho2
      · intro u fid2 hu
        rcases get?_set_cases hlen hu with ⟨rfl, hb⟩ | ⟨_, hu2⟩
        · cases hb
        · exact absurd (h.fetchCold u fid2 hu2) hnotcold
      · intro h1
        rcases h.oneProgress h1 with hcv | ⟨u, fid2, hu⟩
        · exact Or.inl hcv
        · by_cases hut : u = t
          · subst hut; rw [hpc] at hu; cases Option.some.inj hu
          · refine Or.inr ⟨u, fid2, ?_⟩
            rw [get?_set_ne _ _ _ _ hut]
            exact hu
      · intro u fid2 w hu
        rcases get?_set_cases hlen hu with ⟨rfl, hb⟩ | ⟨_, hu2⟩
        · cases hb
        · exact h.storeVal u fid2 w hu2
      · intro u fid2 r2 hu
        rcases get?_set_cases hlen hu with ⟨rfl, hb⟩ | ⟨_, hu2⟩
        · cases hb
        · exact h.pubVal u fid2 r2 hu2
      · intro f r2 hf
        have hf2 : fupd s.results fid r f = some r2 := hf
        by_cases hff : f = fid
        · rw [show fupd s.results fid r f = some r by simp [fupd, hff]] at hf2
          exact (Option.some.inj hf2) ▸ hr
        · rw [show fupd s.results fid r f = s.results f by simp [fupd, hff]] at hf2
          exact h.resVal f r2 hf2
      · intro u r2 hu
        rcases get?_set_cases hlen hu with ⟨he, hb⟩ | ⟨_, hu2⟩
        · injection hb with hbr
          rw [hbr]
          exact hr
        · exact h.doneVal u r2 hu2
    | waitres fid =>
      have hstep0 : mstep fo s t = (match s.results fid with
          | some r2 => { s with pcs := s.pcs.set t (.done r2) }
          | none => s) := by
        unfold mstep; rw [hpc]
      cases hres : s.results fid with
      | none =>
        rw [hstep0, hres]
        exact h
      | some r =>
        have hr : r = .ok v := h.resVal fid r hres
        have hstep : mstep fo s t = { s with pcs := s.pcs.set t (.done r) } := by
          rw [hstep0, hres]
        rw [hstep]
        refine memSuccInv_setPc h hpc (by intro fid2 w2 hh; cases hh) ?_ ?_ ?_ ?_ ?_ ?_ ?_
        · intro h0
          rw [h.coldRes h0 fid] at hres
          cases hres
        · intro hh; cases hh
        · intro hh; cases hh
        · intro fid2 hh; cases hh
        · intro fid2 w2 hh; cases hh
        · intro fid2 r2 hh; cases hh
        · intro r2 hh
          cases hh
          exact hr
    | done r =>
      have hstep : mstep fo s t = s := by unfold mstep; rw [hpc]
      rw [hstep]; exact h

theorem get?_replicate {α : Type u} {n t : Nat} {a b : α}
    (h : (List.replicate n a).get? t = some b) : b = a := by
  induction n generalizing t with
  | zero => simp [List.replicate] at h
  | succ m ih =>
    cases t with
    | zero => simpa [List.replicate] using h.symm
    | succ t2 => exact ih (by simpa [List.replicate] using h)

theorem lt_length_get? {α : Type u} {l : List α} {t : Nat} (h : t < l.length) :
    ∃ b, l.get? t = some b := by
  induction l generalizing t with
  | nil => simp at h
  | cons x xs ih =>
    cases t with
    | zero => exact ⟨x, rfl⟩
    | succ m => simpa using ih (by simpa using h)

theorem mstep_pcs_length {T : Type} (fo : Nat → Except CErr T) (s : MSys T) (t : Nat) :
    (mstep fo s t).pcs.length = s.pcs.length := by
  unfold mstep
  cases hpc : s.pcs.get? t with
  | none => rfl
  | some pc =>
    cases pc with
    | start => cases s.cache <;> simp
    | enter => by_cases hfa : s.flightActive <;> simp [hfa]
    | check fid => cases s.cache <;> simp
    | mfetch fid => cases fo s.fetchCount <;> simp
    | mstore fid w => simp
    | publish fid r => simp
    | waitres fid => cases hres : s.results fid <;> simp [hres]
    | done r => rfl

theorem mrun_pcs_length {T : Type} (fo : Nat → Except CErr T) (sched : List Nat) (s : MSys T) :
    (mrun fo sched s).pcs.length = s.pcs.length := by
  induction sched generalizing s with
  | nil => rfl
  | cons a l ih =>
    show (mrun fo l (mstep fo s a)).pcs.length = s.pcs.length
    rw [ih, mstep_pcs_length]

theorem memSuccInv_run {T : Type} {fo : Nat → Except CErr T} {v : T}
    (hfo : fo 0 = .ok v) :
    ∀ (sched : List Nat) (s : MSys T), MemSuccInv v s → MemSuccInv v (mrun fo sched s) := by
  intro sched
  induction sched with
  | nil => intro s hs; exact hs
  | cons a l ih => intro s hs; exact ih (mstep fo s a) (memSuccInv_step hfo hs a)

theorem memSuccInv_init (T : Type) (v : T) (n : Nat) : MemSuccInv v (mInit T n) := by
  refine ⟨by simp [mInit], fun _ => rfl, fun _ _ => rfl, ?_, ?_, ?_, ?_, ?_, ?_, ?_, ?_,
    ?_, ?_⟩
  · intro _ t pc hpc
    rw [get?_replicate hpc]
    rfl
  · intro w hw
    cases hw
  · intro t pc hpc hown
    rw [get?_replicate hpc] at hown
    cases hown
  · intro t1 t2 pc1 pc2 h1 h2 ho1 ho2
    rw [get?_replicate h1] at ho1
    cases ho1
  · intro t fid hpc
    have := get?_replicate hpc
    cases this
  · intro h1
    simp [mInit] at h1
  · intro t fid w hpc
    have := get?_replicate hpc
    cases this
  · intro t fid r hpc
    have := get?_replicate hpc
    cases this
  · intro f r hf
    cases hf
  · intro t r hpc
    have := get?_replicate hpc
    cases this

theorem mem_success_single_flight {T : Type} {fo : Nat → Except CErr T} {v : T}
    {n : Nat} {sched : List Nat} (hfo : fo 0 = .ok v) (hn : 0 < n)
    (hc : mComplete (mrun fo sched (mInit T n))) :
    (mrun fo sched (mInit T n)).fetchCount = 1 ∧
    ∀ t r, (mrun fo sched (mInit T n)).pcs.get? t = some (.done r) → r = .ok v := by
  have hinv := memSuccInv_run hfo sched _ (memSuccInv_init T v n)
  have hlen : 0 < (mrun fo sched (mInit T n)).pcs.length := by
    rw [mrun_pcs_length]
    simpa [mInit] using hn
  obtain ⟨pc0, hpc0⟩ := lt_length_get? hlen
  have hmem : pc0 ∈ (mrun fo sched (mInit T n)).pcs := List.get?_mem hpc0
  have hdone0 : pc0.isDone = true := by
    have := List.all_eq_true.mp hc
    exact this pc0 hmem
  obtain ⟨r0, hr0⟩ : ∃ r0, pc0 = .done r0 := by
    cases pc0 <;> simp [MPc.isDone] at hdone0 <;> exact ⟨_, rfl⟩
  have hcount : (mrun fo sched (mInit T n)).fetchCount = 1 := by
    rcases Nat.lt_or_ge (mrun fo sched (mInit T n)).fetchCount 1 with h1 | h1
    · exfalso
      have h0 : (mrun fo sched (mInit T n)).fetchCount = 0 := by omega
      have := hinv.coldPcs h0 0 pc0 hpc0
      rw [hr0] at this
      cases this
    · exact le_antisymm hinv.countLe h1
  exact ⟨hcount, fun t r h => hinv.doneVal t r h⟩

theorem memFailInv_step {T : Type} {fo : Nat → Except CErr T} {e : CErr} {s : MSys T}
    (hfo : fo 0 = .error e) (h : MemFailInv e s) (t : Nat) :
    MemFailInv e (mstep fo s t) := by
  cases hpc : s.pcs.get? t with
  | none =>
    have hstep : mstep fo s t = s := by unfold mstep; rw [hpc]
    rw [hstep]; exact h
  | some pc =>
    have hlen : t < s.pcs.length := get?_some_lt hpc
    cases pc with
    | start =>
      cases hc : s.cache with
      | some w =>
        have h2 : 2 ≤ s.fetchCount := h.cacheLate w hc
        have hstep : mstep fo s t = { s with pcs := s.pcs.set t (.done (.ok w)) } := by
          unfold mstep; rw [hpc, hc]
        rw [hstep]
        refine ⟨h.cacheLate, ?_, h.resEarly, ?_, ?_⟩
        · intro u fid w2 hu
          rcases get?_set_cases hlen hu with ⟨he, hb⟩ | ⟨_, hu2⟩
          · cases hb
          · exact h.storeLate u fid w2 hu2
        · intro u fid r hu hle
          rcases get?_set_cases hlen hu with ⟨he, hb⟩ | ⟨_, hu2⟩
          · cases hb
          · exact h.pubEarly u fid r hu2 hle
        · intro u r hu hle
          rcases get?_set_cases hlen hu with ⟨he, hb⟩ | ⟨_, hu2⟩
          · exact absurd (show s.fetchCount ≤ 1 from hle) (by omega)
          · exact h.doneEarly u r hu2 hle
      | none =>
        have hstep : mstep fo s t = { s with pcs := s.pcs.set t .enter } := by
          unfold mstep; rw [hpc, hc]
        rw [hstep]
        refine ⟨h.cacheLate, ?_, h.resEarly, ?_, ?_⟩
        · intro u fid w2 hu
          rcases get?_set_cases hlen hu with ⟨he, hb⟩ | ⟨_, hu2⟩
          · cases hb
          · exact h.storeLate u fid w2 hu2
        · intro u fid r hu hle
          rcases get?_set_cases hlen hu with ⟨he, hb⟩ | ⟨_, hu2⟩
          · cases hb
          · exact h.pubEarly u fid r hu2 hle
        · intro u r hu hle
          rcases get?_set_cases hlen hu with ⟨he, hb⟩ | ⟨_, hu2⟩
          · cases hb
          · exact h.doneEarly u r hu2 hle
    | enter =>
      cases hfa : s.flightActive with
      | true =>
        have hstep : mstep fo s t =
            { s with pcs := s.pcs.set t (.waitres (s.flightId - 1)) } := by
          unfold mstep; rw [hpc, hfa]; rfl
        rw [hstep]
        refine ⟨h.cacheLate, ?_, h.resEarly, ?_, ?_⟩
        · intro u fid w2 hu
          rcases get?_set_cases hlen hu with ⟨he, hb⟩ | ⟨_, hu2⟩
          · cases hb
          · exact h.storeLate u fid w2 hu2
        · intro u fid r hu hle
          rcases get?_set_cases hlen hu with ⟨he, hb⟩ | ⟨_, hu2⟩
          · cases hb
          · exact h.pubEarly u fid r hu2 hle
        · intro u r hu hle
          rcases get?_set_cases hlen hu with ⟨he, hb⟩ | ⟨_, hu2⟩
          · cases hb
          · exact h.doneEarly u r hu2 hle
      | false =>
        have hstep : mstep fo s t =
            { s with flightActive := true, flightId := s.flightId + 1,
                     pcs := s.pcs.set t (.check s.flightId) } := by
          unfold mstep; rw [hpc, hfa]; rfl
        rw [hstep]
        refine ⟨h.cacheLate, ?_, h.resEarly, ?_, ?_⟩
        · intro u fid w2 hu
          rcases get?_set_cases hlen hu with ⟨he, hb⟩ | ⟨_, hu2⟩
          · cases hb
          · exact h.storeLate u fid w2 hu2
        · intro u fid r hu hle
          rcases get?_set_cases hlen hu with ⟨he, hb⟩ | ⟨_, hu2⟩
          · cases hb
          · exact h.pubEarly u fid r hu2 hle
        · intro u r hu hle
          rcases get?_set_cases hlen hu with ⟨he, hb⟩ | ⟨_, hu2⟩
          · cases hb
          · exact h.doneEarly u r hu2 hle
    | check fid =>
      cases hc : s.cache with
      | some w =>
        have h2 : 2 ≤ s.fetchCount := h.cacheLate w hc
        have hstep : mstep fo s t =
            { s with pcs := s.pcs.set t (.publish fid (.ok w)) } := by
          unfold mstep; rw [hpc, hc]
        rw [hstep]
        refine ⟨h.cacheLate, ?_, h.resEarly, ?_, ?_⟩
        · intro u fid2 w2 hu
          rcases get?_set_cases hlen hu with ⟨he, hb⟩ | ⟨_, hu2⟩
          · cases hb
          · exact h.storeLate u fid2 w2 hu2
        · intro u fid2 r hu hle
          rcases get?_set_cases hlen hu with ⟨he, hb⟩ | ⟨_, hu2⟩
          · exact absurd (show s.fetchCount ≤ 1 from hle) (by omega)
          · exact h.pubEarly u fid2 r hu2 hle
        · intro u r hu hle
          rcases get?_set_cases hlen hu with ⟨he, hb⟩ | ⟨_, hu2⟩
          · cases hb
          · exact h.doneEarly u r hu2 hle
      | none =>
        have hstep : mstep fo s t = { s with pcs := s.pcs.set t (.mfetch fid) } := by
          unfold mstep; rw [hpc, hc]
        rw [hstep]
        refine ⟨h.cacheLate, ?_, h.resEarly, ?_, ?_⟩
        · intro u fid2 w2 hu
          rcases get?_set_cases hlen hu with ⟨he, hb⟩ | ⟨_, hu2⟩
          · cases hb
          · exact h.storeLate u fid2 w2 hu2
        · intro u fid2 r hu hle
          rcases get?_set_cases hlen hu with ⟨he, hb⟩ | ⟨_, hu2⟩
          · cases hb
          · exact h.pubEarly u fid2 r hu2 hle
        · intro u r hu hle
          rcases get?_set_cases hlen hu with ⟨he, hb⟩ | ⟨_, hu2⟩
          · cases hb
          · exact h.doneEarly u r hu2 hle
    | mfetch fid =>
      cases hfetch : fo s.fetchCount with
      | ok w =>
        have hge1 : 1 ≤ s.fetchCount := by
          by_contra hlt
          have h0 : s.fetchCount = 0 := by omega
          rw [h0, hfo] at hfetch
          cases hfetch
        have hstep : mstep fo s t =
            { s with fetchCount := s.fetchCount + 1,
                     pcs := s.pcs.set t (.mstore fid w) } := by
          unfold mstep; rw [hpc, hfetch]
        rw [hstep]
        refine ⟨?_, ?_, ?_, ?_, ?_⟩
        · intro w2 hw2
          have := h.cacheLate w2 hw2
          show 2 ≤ s.fetchCount + 1
          omega
        · intro u fid2 w2 hu
          rcases get?_set_cases hlen hu with ⟨he, hb⟩ | ⟨_, hu2⟩
          · show 2 ≤ s.fetchCount + 1
            omega
          · have := h.storeLate u fid2 w2 hu2
            show 2 ≤ s.fetchCount + 1
            omega
        · intro f r hf hle
          have hle2 : s.fetchCount + 1 ≤ 1 := hle
          exact h.resEarly f r hf (by omega)
        · intro u fid2 r hu hle
          have hle2 : s.fetchCount + 1 ≤ 1 := hle
          rcases get?_set_cases hlen hu with ⟨he, hb⟩ | ⟨_, hu2⟩
          · cases hb
          · exact h.pubEarly u fid2 r hu2 (by omega)
        · intro u r hu hle
          have hle2 : s.fetchCount + 1 ≤ 1 := hle
          rcases get?_set_cases hlen hu with ⟨he, hb⟩ | ⟨_, hu2⟩
          · cases hb
          · exact h.doneEarly u r hu2 (by omega)
      | error e2 =>
        have hstep : mstep fo s t =
            { s with fetchCount := s.fetchCount + 1,
                     pcs := s.pcs.set t (.publish fid (.error e2)) } := by
          unfold mstep; rw [hpc, hfetch]
        rw [hstep]
        refine ⟨?_, ?_, ?_, ?_, ?_⟩
        · intro w2 hw2
          have := h.cacheLate w2 hw2
          show 2 ≤ s.fetchCount + 1
          omega
        · intro u fid2 w2 hu
          rcases get?_set_cases hlen hu with ⟨he, hb⟩ | ⟨_, hu2⟩
          · cases hb
          · have := h.storeLate u fid2 w2 hu2
            show 2 ≤ s.fetchCount + 1
            omega
        · intro f r hf hle
          have hle2 : s.fetchCount + 1 ≤ 1 := hle
          exact h.resEarly f r hf (by omega)
        · intro u fid2 r hu hle
          have hle2 : s.fetchCount + 1 ≤ 1 := hle
          rcases get?_set_cases hlen hu with ⟨he, hb⟩ | ⟨_, hu2⟩
          · have h0 : s.fetchCount = 0 := by omega
            rw [h0, hfo] at hfetch
            injection hfetch with he2
            injection hb with hb1 hb2
            rw [hb2, ← he2]
          · exact h.pubEarly u fid2 r hu2 (by omega)
        · intro u r hu hle
          have hle2 : s.fetchCount + 1 ≤ 1 := hle
          rcases get?_set_cases hlen hu with ⟨he, hb⟩ | ⟨_, hu2⟩
          · cases hb
          · exact h.doneEarly u r hu2 (by omega)
    | mstore fid w =>
      have h2 : 2 ≤ s.fetchCount := h.storeLate t fid w hpc
      have hstep : mstep fo s t =
          { s with cache := some w, pcs := s.pcs.set t (.publish fid (.ok w)) } := by
        unfold mstep; rw [hpc]
      rw [hstep]
      refine ⟨?_, ?_, h.resEarly, ?_, ?_⟩
      · intro w2 _
        exact h2
      · intro u fid2 w2 hu
        rcases get?_set_cases hlen hu with ⟨he, hb⟩ | ⟨_, hu2⟩
        · cases hb
        · exact h.storeLate u fid2 w2 hu2
      · intro u fid2 r hu hle
        rcases get?_set_cases hlen hu with ⟨he, hb⟩ | ⟨_, hu2⟩
        · exact absurd (show s.fetchCount ≤ 1 from hle) (by omega)
        · exact h.pubEarly u fid2 r hu2 hle
      · intro u r hu hle
        rcases get?_set_cases hlen hu with ⟨he, hb⟩ | ⟨_, hu2⟩
        · cases hb
        · exact h.doneEarly u r hu2 hle
    | publish fid r =>
      have hstep : mstep fo s t =
          { s with flightActive := false, results := fupd s.results fid r,
                   pcs := s.pcs.set t (.done r) } := by
        unfold mstep; rw [hpc]
      rw [hstep]
      refine ⟨h.cacheLate, ?_, ?_, ?_, ?_⟩
      · intro u fid2 w2 hu
        rcases get?_set_cases hlen hu with ⟨he, hb⟩ | ⟨_, hu2⟩
        · cases hb
        · exact h.storeLate u fid2 w2 hu2
      · intro f r2 hf hle
        have hf2 : fupd s.results fid r f = some r2 := hf
        by_cases hff : f = fid
        · rw [show fupd s.results fid r f = some r by simp [fupd, hff]] at hf2
          rw [← Option.some.inj hf2]
          exact h.pubEarly t fid r hpc hle
        · rw [show fupd s.results fid r f = s.results f by simp [fupd, hff]] at hf2
          exact h.resEarly f r2 hf2 hle
      · intro u fid2 r2 hu hle
        rcases get?_set_cases hlen hu with ⟨he, hb⟩ | ⟨_, hu2⟩
        · cases hb
        · exact h.pubEarly u fid2 r2 hu2 hle
      · intro u r2 hu hle
        rcases get?_set_cases hlen hu with ⟨he, hb⟩ | ⟨_, hu2⟩
        · injection hb with hbr
          rw [hbr]
          exact h.pubEarly t fid r hpc hle
        · exact h.doneEarly u r2 hu2 hle
    | waitres fid =>
      have hstep0 : mstep fo s t = (match s.results fid with
          | some r2 => { s with pcs := s.pcs.set t (.done r2) }
          | none => s) := by
        unfold mstep; rw [hpc]
      cases hres : s.results fid with
      | none =>
        rw [hstep0, hres]
        exact h
      | some r =>
        have hstep : mstep fo s t = { s with pcs := s.pcs.set t (.done r) } := by
          rw [hstep0, hres]
        rw [hstep]
        refine ⟨h.cacheLate, ?_, h.resEarly, ?_, ?_⟩
        · intro u fid2 w2 hu
          rcases get?_set_cases hlen hu with ⟨he, hb⟩ | ⟨_, hu2⟩
          · cases hb
          · exact h.storeLate u fid2 w2 hu2
        · intro u fid2 r2 hu hle
          rcases get?_set_cases hlen hu with ⟨he, hb⟩ | ⟨_, hu2⟩
          · cases hb
          · exact h.pubEarly u fid2 r2 hu2 hle
        · intro u r2 hu hle
          rcases get?_set_cases hlen hu with ⟨he, hb⟩ | ⟨_, hu2⟩
          · injection hb with hbr
            rw [hbr]
            exact h.resEarly fid r hres hle
          · exact h.doneEarly u r2 hu2 hle
    | done r =>
      have hstep : mstep fo s t = s := by unfold mstep; rw [hpc]
      rw [hstep]; exact h

theorem memFailInv_run {T : Type} {fo : Nat → Except CErr T} {e : CErr}
    (hfo : fo 0 = .error e) :
    ∀ (sched : List Nat) (s : MSys T), MemFailInv e s → MemFailInv e (mrun fo sched s) := by
  intro sched
  induction sched with
  | nil => intro s hs; exact hs
  | cons a l ih => intro s hs; exact ih (mstep fo s a) (memFailInv_step hfo hs a)

theorem memFailInv_init (T : Type) (e : CErr) (n : Nat) : MemFailInv e (mInit T n) := by
  refine ⟨?_, ?_, ?_, ?_, ?_⟩
  · intro w hw; cases hw
  · intro t fid w hpc
    have := get?_replicate hpc
    cases this
  · intro f r hf; cases hf
  · intro t fid r hpc _
    have := get?_replicate hpc
    cases this
  · intro t r hpc _
    have := get?_replicate hpc
    cases this

theorem mem_fail_same_error {T : Type} {fo : Nat → Except CErr T} {e : CErr}
    {n : Nat} {sched : List Nat} (hfo : fo 0 = .error e)
    (h1 : (mrun fo sched (mInit T n)).fetchCount = 1) :
    (∀ t r, (mrun fo sched (mInit T n)).pcs.get? t = some (.done r) → r = .error e) ∧
    (mrun fo sched (mInit T n)).cache = none := by
  have hinv := memFailInv_run hfo sched _ (memFailInv_init T e n)
  constructor
  · intro t r h
    exact hinv.doneEarly t r h (by omega)
  · cases hcache : (mrun fo sched (mInit T n)).cache with
    | none => rfl
    | some w => exact absurd (hinv.cacheLate w hcache) (by omega)

theorem rOwnInv_upd {T : Type} {s : RSys T} (h : ROwnInv s) {t : Nat}
    (hlen : t < s.pcs.length) {pcNew : RPc T} (cv : Option String) (n : Nat)
    (hsafe : pcNew.isOwner = true → s.lock = some t) :
    ROwnInv ⟨cv, s.lock, n, s.pcs.set t pcNew⟩ := by
  intro u pcu hu hown
  rcases get?_set_cases hlen hu with ⟨he, hb⟩ | ⟨_, hu2⟩
  · rw [he]; exact hsafe (hb ▸ hown)
  · exact h u pcu hu2 hown

theorem rOwnInv_step {T : Type} {enc : T → String} {dec : String → Option T}
    {fo : Nat → Except CErr T} {ctxd : Nat → Bool} {s : RSys T}
    (h : ROwnInv s) (t : Nat) : ROwnInv (rstep enc dec fo ctxd s t) := by
  cases hpc : s.pcs.get? t with
  | none =>
    have hstep : rstep enc dec fo ctxd s t = s := by unfold rstep; rw [hpc]
    rw [hstep]; exact h
  | some pc =>
    have hlen : t < s.pcs.length := get?_some_lt hpc
    cases pc with
    | start =>
      cases hc : s.cval with
      | some str =>
        have hstep : rstep enc dec fo ctxd s t =
            { s with pcs := s.pcs.set t (.done (decodeRes dec str)) } := by
          unfold rstep; rw [hpc, hc]
        rw [hstep]
        exact rOwnInv_upd h hlen _ _ (fun hh => by cases hh)
      | none =>
        have hstep : rstep enc dec fo ctxd s t =
            { s with pcs := s.pcs.set t .trylock } := by
          unfold rstep; rw [hpc, hc]
        rw [hstep]
        exact rOwnInv_upd h hlen _ _ (fun hh => by cases hh)
    | trylock =>
      cases hl : s.lock with
      | none =>
        have hstep : rstep enc dec fo ctxd s t =
            { s with lock := some t, pcs := s.pcs.set t .rfetch } := by
          unfold rstep; rw [hpc, hl]
        rw [hstep]
        intro u pcu hu hown
        rcases get?_set_cases hlen hu with ⟨he, hb⟩ | ⟨hne, hu2⟩
        · rw [he]
        · exact absurd (h u pcu hu2 hown) (by rw [hl]; intro hh; cases hh)
      | some owner0 =>
        have hstep : rstep enc dec fo ctxd s t =
            { s with pcs := s.pcs.set t (.witer 10 0) } := by
          unfold rstep; rw [hpc, hl]
        rw [hstep]
        exact rOwnInv_upd h hlen _ _ (fun hh => by cases hh)
    | rfetch =>
      cases hfe : fo s.fetchCount with
      | ok v0 =>
        have hstep : rstep enc dec fo ctxd s t =
            { s with fetchCount := s.fetchCount + 1,
                     pcs := s.pcs.set t (.rstore v0) } := by
          unfold rstep; rw [hpc, hfe]
        rw [hstep]
        exact rOwnInv_upd h hlen _ _ (fun _ => h t .rfetch hpc rfl)
      | error e0 =>
        have hstep : rstep enc dec fo ctxd s t =
            { s with fetchCount := s.fetchCount + 1,
                     pcs := s.pcs.set t (.release (.error (fetchFailed e0))) } := by
          unfold rstep; rw [hpc, hfe]
        rw [hstep]
        exact rOwnInv_upd h hlen _ _ (fun _ => h t .rfetch hpc rfl)
    | rstore v0 =>
      have hstep : rstep enc dec fo ctxd s t =
          { s with cval := some (enc v0), pcs := s.pcs.set t (.release (.ok v0)) } := by
        unfold rstep; rw [hpc]
      rw [hstep]
      exact rOwnInv_upd h hlen _ _ (fun _ => h t (.rstore v0) hpc rfl)
    | release r =>
      have hstep0 : rstep enc dec fo ctxd s t =
          (if s.lock = some t
           then { s with lock := none, pcs := s.pcs.set t (.done r) }
           else { s with pcs := s.pcs.set t (.done r) }) := by
        unfold rstep; rw [hpc]
      by_cases hlk : s.lock = some t
      · rw [hstep0, if_pos hlk]
        intro u pcu hu hown
        rcases get?_set_cases hlen hu with ⟨he, hb⟩ | ⟨hne, hu2⟩
        · exact absurd (hb ▸ hown) (by simp [RPc.isOwner])
        · have hlock := h u pcu hu2 hown
          rw [hlk] at hlock
          injection hlock with hh
          exact absurd hh.symm hne
      · rw [hstep0, if_neg hlk]
        intro u pcu hu hown
        rcases get?_set_cases hlen hu with ⟨he, hb⟩ | ⟨hne, hu2⟩
        · exact absurd (hb ▸ hown) (by simp [RPc.isOwner])
        · exact h u pcu hu2 hown
    | witer b now =>
      have hstep0 : rstep enc dec fo ctxd s t =
          (if ctxd now = true
           then { s with pcs := s.pcs.set t (.done (.error ctxCanceledErr)) }
           else if 30000 < now
           then { s with pcs := s.pcs.set t (.done (.error timeoutErr)) }
           else match s.cval with
             | some str => { s with pcs := s.pcs.set t (.done (decodeRes dec str)) }
             | none => { s with pcs := s.pcs.set t (.wlock b now) }) := by
        unfold rstep; rw [hpc]
      rw [hstep0]
      cases hcd : ctxd now with
      | true =>
        rw [if_pos rfl]
        exact rOwnInv_upd h hlen _ _ (fun hh => by cases hh)
      | false =>
        rw [if_neg (by simp)]
        by_cases hdl : 30000 < now
        · rw [if_pos hdl]
          exact rOwnInv_upd h hlen _ _ (fun hh => by cases hh)
        · rw [if_neg hdl]
          cases hc : s.cval with
          | some str =>
            exact rOwnInv_upd h hlen _ _ (fun hh => by cases hh)
          | none =>
            exact rOwnInv_upd h hlen _ _ (fun hh => by cases hh)
    | wlock b now =>
      cases hl : s.lock with
      | some owner0 =>
        have hstep : rstep enc dec fo ctxd s t =
            { s with pcs := s.pcs.set t (.witer (bup b) (now + b)) } := by
          unfold rstep; rw [hpc, hl]
        rw [hstep]
        have h2 : ROwnInv (⟨s.cval, s.lock, s.fetchCount,
            s.pcs.set t (.witer (bup b) (now + b))⟩ : RSys T) :=
          rOwnInv_upd h hlen _ _ (fun hh => by cases hh)
        exact h2
      | none =>
        have hstep : rstep enc dec fo ctxd s t =
            { s with pcs := s.pcs.set t (.wfinal b now) } := by
          unfold rstep; rw [hpc, hl]
        rw [hstep]
        exact rOwnInv_upd h hlen _ _ (fun hh => by cases hh)
    | wfinal b now =>
      cases hc : s.cval with
      | some str =>
        have hstep : rstep enc dec fo ctxd s t =
            { s with pcs := s.pcs.set t (.done (decodeRes dec str)) } := by
          unfold rstep; rw [hpc, hc]
        rw [hstep]
        exact rOwnInv_upd h hlen _ _ (fun hh => by cases hh)
      | none =>
        have hstep : rstep enc dec fo ctxd s t =
            { s with pcs := s.pcs.set t (.done (.error notPopulatedErr)) } := by
          unfold rstep; rw [hpc, hc]
        rw [hstep]
        exact rOwnInv_upd h hlen _ _ (fun hh => by cases hh)
    | done r =>
      have hstep : rstep enc dec fo ctxd s t = s := by unfold rstep; rw [hpc]
      rw [hstep]; exact h

theorem rOwnInv_run {T : Type} {enc : T → String} {dec : String → Option T}
    {fo : Nat → Except CErr T} {ctxd : Nat → Bool} :
    ∀ (sched : List Nat) (s : RSys T), ROwnInv s →
      ROwnInv (rrun enc dec fo ctxd sched s) := by
  intro sched
  induction sched with
  | nil => intro s hs; exact hs
  | cons a l ih => intro s hs; exact ih (rstep enc dec fo ctxd s a) (rOwnInv_step hs a)

theorem rOwnInv_init (T : Type) (n : Nat) : ROwnInv (rInit T n) := by
  intro t pc hpc hown
  rw [get?_replicate hpc] at hown
  cases hown

/-- Mutual exclusion of the redis winner section: in any reachable state of
the race, at most one goroutine is between a successful `SETNX` and its
deferred release, so fetch executions never overlap. -/
theorem redis_mutual_exclusion {T : Type} (enc : T → String) (dec : String → Option T)
    (fo : Nat → Except CErr T) (ctxd : Nat → Bool) (n : Nat) (sched : List Nat)
    (t1 t2 : Nat) (pc1 pc2 : RPc T)
    (h1 : (rrun enc dec fo ctxd sched (rInit T n)).pcs.get? t1 = some pc1)
    (h2 : (rrun enc dec fo ctxd sched (rInit T n)).pcs.get? t2 = some pc2)
    (ho1 : pc1.isOwner = true) (ho2 : pc2.isOwner = true) : t1 = t2 := by
  have hinv := @rOwnInv_run T enc dec fo ctxd sched _ (rOwnInv_init T n)
  have ha := hinv t1 pc1 h1 ho1
  have hb := hinv t2 pc2 h2 ho2
  rw [ha] at hb
  injection hb

theorem rSuccInv_setPc {T : Type} {enc : T → String} {v : T} {s : RSys T}
    (h : RSuccInv enc v s) {t : Nat} {pcOld : RPc T}
    (hpcT : s.pcs.get? t = some pcOld) {pcNew : RPc T}
    (hStore : ∀ w, pcNew = .rstore w → w = v)
    (hRel : ∀ r, pcNew = .release r → r = .ok v ∧ s.cval = some (enc v))
    (hWait : pcNew.isWait = true → s.lock ≠ none ∨ s.cval = some (enc v))
    (hWfin : ∀ b now, pcNew = .wfinal b now → s.cval = some (enc v))
    (hDone : ∀ r, pcNew = .done r → r = .ok v ∨ r = .error timeoutErr) :
    RSuccInv enc v { s with pcs := s.pcs.set t pcNew } := by
  have hlen : t < s.pcs.length := get?_some_lt hpcT
  refine ⟨h.cvalEnc, ?_, ?_, ?_, ?_, ?_⟩
  · intro u w hu
    rcases get?_set_cases hlen hu with ⟨he, hb⟩ | ⟨_, hu2⟩
    · exact hStore w hb.symm
    · exact h.storeVal u w hu2
  · intro u r hu
    rcases get?_set_cases hlen hu with ⟨he, hb⟩ | ⟨_, hu2⟩
    · exact hRel r hb.symm
    · exact h.relVal u r hu2
  · intro u pcu hu hw
    rcases get?_set_cases hlen hu with ⟨he, hb⟩ | ⟨_, hu2⟩
    · exact hWait (hb ▸ hw)
    · exact h.waitSafe u pcu hu2 hw
  · intro u b now hu
    rcases get?_set_cases hlen hu with ⟨he, hb⟩ | ⟨_, hu2⟩
    · exact hWfin b now hb.symm
    · exact h.wfinalSafe u b now hu2
  · intro u r hu
    rcases get?_set_cases hlen hu with ⟨he, hb⟩ | ⟨_, hu2⟩
    · exact hDone r hb.symm
    · exact h.doneVal u r hu2

theorem rSuccInv_step {T : Type} {enc : T → String} {dec : String → Option T}
    {fo : Nat → Except CErr T} {ctxd : Nat → Bool} {v : T} {s : RSys T}
    (hfo : ∀ i, fo i = .ok v) (hdec : dec (enc v) = some v)
    (hctx : ∀ x, ctxd x = false) (h : RSuccInv enc v s) (t : Nat) :
    RSuccInv enc v (rstep enc dec fo ctxd s t) := by
  cases hpc : s.pcs.get? t with
  | none =>
    have hstep : rstep enc dec fo ctxd s t = s := by unfold rstep; rw [hpc]
    rw [hstep]; exact h
  | some pc =>
    have hlen : t < s.pcs.length := get?_some_lt hpc
    cases pc with
    | start =>
      cases hc : s.cval with
      | some str =>
        have hstr : str = enc v := h.cvalEnc str hc
        have hdr : decodeRes dec str = .ok v := by
          rw [hstr]; unfold decodeRes; rw [hdec]
        have hstep : rstep enc dec fo ctxd s t =
            { s with pcs := s.pcs.set t (.done (decodeRes dec str)) } := by
          unfold rstep; rw [hpc, hc]
        rw [hstep]
        refine rSuccInv_setPc h hpc ?_ ?_ ?_ ?_ ?_
        · intro w hh; cases hh
        · intro r hh; cases hh
        · intro hh; simp [RPc.isWait] at hh
        · intro b now hh; cases hh
        · intro r hh
          injection hh with h2
          exact Or.inl (h2 ▸ hdr)
      | none =>
        have hstep : rstep enc dec fo ctxd s t =
            { s with pcs := s.pcs.set t .trylock } := by
          unfold rstep; rw [hpc, hc]
        rw [hstep]
        refine rSuccInv_setPc h hpc ?_ ?_ ?_ ?_ ?_
        · intro w hh; cases hh
        · intro r hh; cases hh
        · intro hh; simp [RPc.isWait] at hh
        · intro b now hh; cases hh
        · intro r hh; cases hh
    | trylock =>
      cases hl : s.lock with
      | none =>
        have hstep : rstep enc dec fo ctxd s t =
            { s with lock := some t, pcs := s.pcs.set t .rfetch } := by
          unfold rstep; rw [hpc, hl]
        rw [hstep]
        refine ⟨h.cvalEnc, ?_, ?_, ?_, ?_, ?_⟩
        · intro u w hu
          rcases get?_set_cases hlen hu with ⟨he, hb⟩ | ⟨_, hu2⟩
          · cases hb
          · exact h.storeVal u w hu2
        · intro u r hu
          rcases get?_set_cases hlen hu with ⟨he, hb⟩ | ⟨_, hu2⟩
          · cases hb
          · exact h.relVal u r hu2
        · intro u pcu hu hw
          exact Or.inl (by intro hh; cases hh)
        · intro u b now hu
          rcases get?_set_cases hlen hu with ⟨he, hb⟩ | ⟨_, hu2⟩
          · cases hb
          · exact h.wfinalSafe u b now hu2
        · intro u r hu
          rcases get?_set_cases hlen hu with ⟨he, hb⟩ | ⟨_, hu2⟩
          · cases hb
          · exact h.doneVal u r hu2
      | some owner0 =>
        have hstep : rstep enc dec fo ctxd s t =
            { s with pcs := s.pcs.set t (.witer 10 0) } := by
          unfold rstep; rw [hpc, hl]
        rw [hstep]
        refine rSuccInv_setPc h hpc ?_ ?_ ?_ ?_ ?_
        · intro w hh; cases hh
        · intro r hh; cases hh
        · intro _
          exact Or.inl (by rw [hl]; intro hh; cases hh)
        · intro b now hh; cases hh
        · intro r hh; cases hh
    | rfetch =>
      have hstep : rstep enc dec fo ctxd s t =
          { s with fetchCount := s.fetchCount + 1,
                   pcs := s.pcs.set t (.rstore v) } := by
        unfold rstep; rw [hpc, hfo s.fetchCount]
      rw [hstep]
      refine ⟨h.cvalEnc, ?_, ?_, ?_, ?_, ?_⟩
      · intro u w hu
        rcases get?_set_cases hlen hu with ⟨he, hb⟩ | ⟨_, hu2⟩
        · exact RPc.rstore.inj hb
        · exact h.storeVal u w hu2
      · intro u r hu
        rcases get?_set_cases hlen hu with ⟨he, hb⟩ | ⟨_, hu2⟩
        · cases hb
        · exact h.relVal u r hu2
      · intro u pcu hu hw
        rcases get?_set_cases hlen hu with ⟨he, hb⟩ | ⟨_, hu2⟩
        · rw [hb] at hw; simp [RPc.isWait] at hw
        · exact h.waitSafe u pcu hu2 hw
      · intro u b now hu
        rcases get?_set_cases hlen hu with ⟨he, hb⟩ | ⟨_, hu2⟩
        · cases hb
        · exact h.wfinalSafe u b now hu2
      · intro u r hu
        rcases get?_set_cases hlen hu with ⟨he, hb⟩ | ⟨_, hu2⟩
        · cases hb
        · exact h.doneVal u r hu2
    | rstore w =>
      have hw : w = v := h.storeVal t w hpc
      have hstep : rstep enc dec fo ctxd s t =
          { s with cval := some (enc w), pcs := s.pcs.set t (.release (.ok w)) } := by
        unfold rstep; rw [hpc]
      rw [hstep]
      refine ⟨?_, ?_, ?_, ?_, ?_, ?_⟩
      · intro str hstr
        exact ((Option.some.inj hstr).symm).trans (by rw [hw])
      · intro u w2 hu
        rcases get?_set_cases hlen hu with ⟨he, hb⟩ | ⟨_, hu2⟩
        · cases hb
        · exact h.storeVal u w2 hu2
      · intro u r hu
        rcases get?_set_cases hlen hu with ⟨he, hb⟩ | ⟨_, hu2⟩
        · injection hb with h2
          refine ⟨by rw [h2, hw], by rw [hw]⟩
        · exact ⟨(h.relVal u r hu2).1, by rw [hw]⟩
      · intro u pcu hu hw2
        exact Or.inr (by rw [hw])
      · intro u b now hu
        rw [hw]
      · intro u r hu
        rcases get?_set_cases hlen hu with ⟨he, hb⟩ | ⟨_, hu2⟩
        · cases hb
        · exact h.doneVal u r hu2
    | release r =>
      obtain ⟨hr, hcv⟩ := h.relVal t r hpc
      have hstep0 : rstep enc dec fo ctxd s t =
          (if s.lock = some t
           then { s with lock := none, pcs := s.pcs.set t (.done r) }
           else { s with pcs := s.pcs.set t (.done r) }) := by
        unfold rstep; rw [hpc]
      by_cases hlk : s.lock = some t
      · rw [hstep0, if_pos hlk]
        refine ⟨h.cvalEnc, ?_, ?_, ?_, ?_, ?_⟩
        · intro u w hu
          rcases get?_set_cases hlen hu with ⟨he, hb⟩ | ⟨_, hu2⟩
          · cases hb
          · exact h.storeVal u w hu2
        · intro u r2 hu
          rcases get?_set_cases hlen hu with ⟨he, hb⟩ | ⟨_, hu2⟩
          · cases hb
          · exact h.relVal u r2 hu2
        · intro u pcu hu hw
          exact Or.inr hcv
        · intro u b now hu
          exact hcv
        · intro u r2 hu
          rcases get?_set_cases hlen hu with ⟨he, hb⟩ | ⟨_, hu2⟩
          · injection hb with h2
            exact Or.inl (by rw [h2, hr])
          · exact h.doneVal u r2 hu2
      · rw [hstep0, if_neg hlk]
        refine rSuccInv_setPc h hpc ?_ ?_ ?_ ?_ ?_
        · intro w hh; cases hh
        · intro r2 hh; cases hh
        · intro hh; simp [RPc.isWait] at hh
        · intro b now hh; cases hh
        · intro r2 hh
          injection hh with h2
          exact Or.inl (by rw [← h2, hr])
    | witer b now =>
      have hstep0 : rstep enc dec fo ctxd s t =
          (if ctxd now = true
           then { s with pcs := s.pcs.set t (.done (.error ctxCanceledErr)) }
           else if 30000 < now
           then { s with pcs := s.pcs.set t (.done (.error timeoutErr)) }
           else match s.cval with
             | some str => { s with pcs := s.pcs.set t (.done (decodeRes dec str)) }
             | none => { s with pcs := s.pcs.set t (.wlock b now) }) := by
        unfold rstep; rw [hpc]
      rw [hstep0, hctx now, if_neg (by simp)]
      by_cases hdl : 30000 < now
      · rw [if_pos hdl]
        refine rSuccInv_setPc h hpc ?_ ?_ ?_ ?_ ?_
        · intro w hh; cases hh
        · intro r hh; cases hh
        · intro hh; simp [RPc.isWait] at hh
        · intro b2 n2 hh; cases hh
        · intro r hh
          injection hh with h2
          exact Or.inr h2.symm
      · rw [if_neg hdl]
        cases hc : s.cval with
        | some str =>
          have hstr : str = enc v := h.cvalEnc str hc
          have hdr : decodeRes dec str = .ok v := by
            rw [hstr]; unfold decodeRes; rw [hdec]
          have hres : RSuccInv enc v
              { s with pcs := s.pcs.set t (.done (decodeRes dec str)) } := by
            refine rSuccInv_setPc h hpc ?_ ?_ ?_ ?_ ?_
            · intro w hh; cases hh
            · intro r hh; cases hh
            · intro hh; simp [RPc.isWait] at hh
            · intro b2 n2 hh; cases hh
            · intro r hh
              injection hh with h2
              exact Or.inl (h2 ▸ hdr)
          have hres2 := hc ▸ hres
          exact hres2
        | none =>
          have hres : RSuccInv enc v { s with pcs := s.pcs.set t (.wlock b now) } := by
            refine rSuccInv_setPc h hpc ?_ ?_ ?_ ?_ ?_
            · intro w hh; cases hh
            · intro r hh; cases hh
            · intro _
              exact h.waitSafe t (.witer b now) hpc rfl
            · intro b2 n2 hh; cases hh
            · intro r hh; cases hh
          have hres2 := hc ▸ hres
          exact hres2
    | wlock b now =>
      cases hl : s.lock with
      | some owner0 =>
        have hstep : rstep enc dec fo ctxd s t =
            { s with pcs := s.pcs.set t (.witer (bup b) (now + b)) } := by
          unfold rstep; rw [hpc, hl]
        rw [hstep]
        refine rSuccInv_setPc h hpc ?_ ?_ ?_ ?_ ?_
        · intro w hh; cases hh
        · intro r hh; cases hh
        · intro _
          exact Or.inl (by rw [hl]; intro hh; cases hh)
        · intro b2 n2 hh; cases hh
        · intro r hh; cases hh
      | none =>
        have hcv : s.cval = some (enc v) := by
          rcases h.waitSafe t (.wlock b now) hpc rfl with hlk | hcv2
          · exact absurd hl hlk
          · exact hcv2
        have hstep : rstep enc dec fo ctxd s t =
            { s with pcs := s.pcs.set t (.wfinal b now) } := by
          unfold rstep; rw [hpc, hl]
        rw [hstep]
        refine rSuccInv_setPc h hpc ?_ ?_ ?_ ?_ ?_
        · intro w hh; cases hh
        · intro r hh; cases hh
        · intro _
          exact Or.inr hcv
        · intro b2 n2 hh
          exact hcv
        · intro r hh; cases hh
    | wfinal b now =>
      have hcv : s.cval = some (enc v) := h.wfinalSafe t b now hpc
      cases hc : s.cval with
      | none =>
        rw [hc] at hcv
        cases hcv
      | some str =>
        have hstr : str = enc v := Option.some.inj (hc ▸ hcv)
        have hdr : decodeRes dec str = .ok v := by
          rw [hstr]; unfold decodeRes; rw [hdec]
        have hstep : rstep enc dec fo ctxd s t =
            { s with pcs := s.pcs.set t (.done (decodeRes dec str)) } := by
          unfold rstep; rw [hpc, hc]
        rw [hstep]
        refine rSuccInv_setPc h hpc ?_ ?_ ?_ ?_ ?_
        · intro w hh; cases hh
        · intro r hh; cases hh
        · intro hh; simp [RPc.isWait] at hh
        · intro b2 n2 hh; cases hh
        · intro r hh
          injection hh with h2
          exact Or.inl (h2 ▸ hdr)
    | done r =>
      have hstep : rstep enc dec fo ctxd s t = s := by unfold rstep; rw [hpc]
      rw [hstep]; exact h

theorem rSuccInv_run {T : Type} {enc : T → String} {dec : String → Option T}
    {fo : Nat → Except CErr T} {ctxd : Nat → Bool} {v : T}
    (hfo : ∀ i, fo i = .ok v) (hdec : dec (enc v) = some v)
    (hctx : ∀ x, ctxd x = false) :
    ∀ (sched : List Nat) (s : RSys T), RSuccInv enc v s →
      RSuccInv enc v (rrun enc dec fo ctxd sched s) := by
  intro sched
  induction sched with
  | nil => intro s hs; exact hs
  | cons a l ih =>
    intro s hs
    exact ih (rstep enc dec fo ctxd s a) (rSuccInv_step hfo hdec hctx hs a)

theorem rSuccInv_init (T : Type) (enc : T → String) (v : T) (n : Nat) :
    RSuccInv enc v (rInit T n) := by
  refine ⟨?_, ?_, ?_, ?_, ?_, ?_⟩
  · intro str hh; cases hh
  · intro t w hpc
    have := get?_replicate hpc
    cases this
  · intro t r hpc
    have := get?_replicate hpc
    cases this
  · intro t pc hpc hw
    rw [get?_replicate hpc] at hw
    simp [RPc.isWait] at hw
  · intro t b now hpc
    have := get?_replicate hpc
    cases this
  · intro t r hpc
    have := get?_replicate hpc
    cases this

/-- On an all-successful fetch outcome, every call of the redis race that
returned anything other than a wait timeout returned the fetched value. -/
theorem redis_success_all_get_value {T : Type} {enc : T → String} {dec : String → Option T}
    {fo : Nat → Except CErr T} {ctxd : Nat → Bool} {v : T} {n : Nat} {sched : List Nat}
    (hfo : ∀ i, fo i = .ok v) (hdec : dec (enc v) = some v)
    (hctx : ∀ x, ctxd x = false) :
    ∀ t r, (rrun enc dec fo ctxd sched (rInit T n)).pcs.get? t = some (.done r) →
      r ≠ .error timeoutErr → r = .ok v := by
  intro t r h hne
  have hinv := rSuccInv_run hfo hdec hctx sched _ (rSuccInv_init T enc v n)
  rcases hinv.doneVal t r h with h1 | h2
  · exact h1
  · exact absurd h2 hne

theorem rFailInv_setPc {T : Type} {e : CErr} {s : RSys T}
    (h : RFailInv e s) {t : Nat} {pcOld : RPc T}
    (hpcT : s.pcs.get? t = some pcOld) {pcNew : RPc T}
    (hStore : ∀ w, pcNew ≠ .rstore w)
    (hRel : ∀ r, pcNew = .release r → r = .error (fetchFailed e))
    (hDone : ∀ r, pcNew = .done r →
      r = .error (fetchFailed e) ∨ r = .error notPopulatedErr ∨ r = .error timeoutErr) :
    RFailInv e { s with pcs := s.pcs.set t pcNew } := by
  have hlen : t < s.pcs.length := get?_some_lt hpcT
  refine ⟨h.cvalNone, ?_, ?_, ?_⟩
  · intro u w hu
    rcases get?_set_cases hlen hu with ⟨he, hb⟩ | ⟨_, hu2⟩
    · exact hStore w hb.symm
    · exact h.noStore u w hu2
  · intro u r hu
    rcases get?_set_cases hlen hu with ⟨he, hb⟩ | ⟨_, hu2⟩
    · exact hRel r hb.symm
    · exact h.relVal u r hu2
  · intro u r hu
    rcases get?_set_cases hlen hu with ⟨he, hb⟩ | ⟨_, hu2⟩
    · exact hDone r hb.symm
    · exact h.doneVal u r hu2

theorem rFailInv_step {T : Type} {enc : T → String} {dec : String → Option T}
    {fo : Nat → Except CErr T} {ctxd : Nat → Bool} {e : CErr} {s : RSys T}
    (hfo : ∀ i, fo i = .error e) (hctx : ∀ x, ctxd x = false)
    (h : RFailInv e s) (t : Nat) : RFailInv e (rstep enc dec fo ctxd s t) := by
  cases hpc : s.pcs.get? t with
  | none =>
    have hstep : rstep enc dec fo ctxd s t = s := by unfold rstep; rw [hpc]
    rw [hstep]; exact h
  | some pc =>
    have hlen : t < s.pcs.length := get?_some_lt hpc
    cases pc with
    | start =>
      have hstep : rstep enc dec fo ctxd s t =
          { s with pcs := s.pcs.set t .trylock } := by
        unfold rstep; rw [hpc, h.cvalNone]
      rw [hstep]
      refine rFailInv_setPc h hpc ?_ ?_ ?_
      · intro w hh; cases hh
      · intro r hh; cases hh
      · intro r hh; cases hh
    | trylock =>
      cases hl : s.lock with
      | none =>
        have hstep : rstep enc dec fo ctxd s t =
            { s with lock := some t, pcs := s.pcs.set t .rfetch } := by
          unfold rstep; rw [hpc, hl]
        rw [hstep]
        refine ⟨h.cvalNone, ?_, ?_, ?_⟩
        · intro u w hu
          rcases get?_set_cases hlen hu with ⟨he, hb⟩ | ⟨_, hu2⟩
          · cases hb
          · exact h.noStore u w hu2
        · intro u r hu
          rcases get?_set_cases hlen hu with ⟨he, hb⟩ | ⟨_, hu2⟩
          · cases hb
          · exact h.relVal u r hu2
        · intro u r hu
          rcases get?_set_cases hlen hu with ⟨he, hb⟩ | ⟨_, hu2⟩
          · cases hb
          · exact h.doneVal u r hu2
      | some owner0 =>
        have hstep : rstep enc dec fo ctxd s t =
            { s with pcs := s.pcs.set t (.witer 10 0) } := by
          unfold rstep; rw [hpc, hl]
        rw [hstep]
        refine rFailInv_setPc h hpc ?_ ?_ ?_
        · intro w hh; cases hh
        · intro r hh; cases hh
        · intro r hh; cases hh
    | rfetch =>
      have hstep : rstep enc dec fo ctxd s t =
          { s with fetchCount := s.fetchCount + 1,
                   pcs := s.pcs.set t (.release (.error (fetchFailed e))) } := by
        unfold rstep; rw [hpc, hfo s.fetchCount]
      rw [hstep]
      refine ⟨h.cvalNone, ?_, ?_, ?_⟩
      · intro u w hu
        rcases get?_set_cases hlen hu with ⟨he, hb⟩ | ⟨_, hu2⟩
        · cases hb
        · exact h.noStore u w hu2
      · intro u r hu
        rcases get?_set_cases hlen hu with ⟨he, hb⟩ | ⟨_, hu2⟩
        · exact RPc.release.inj hb
        · exact h.relVal u r hu2
      · intro u r hu
        rcases get?_set_cases hlen hu with ⟨he, hb⟩ | ⟨_, hu2⟩
        · cases hb
        · exact h.doneVal u r hu2
    | rstore w =>
      exact absurd hpc (h.noStore t w)
    | release r =>
      have hr : r = .error (fetchFailed e) := h.relVal t r hpc
      have hstep0 : rstep enc dec fo ctxd s t =
          (if s.lock = some t
           then { s with lock := none, pcs := s.pcs.set t (.done r) }
           else { s with pcs := s.pcs.set t (.done r) }) := by
        unfold rstep; rw [hpc]
      by_cases hlk : s.lock = some t
      · rw [hstep0, if_pos hlk]
        refine ⟨h.cvalNone, ?_, ?_, ?_⟩
        · intro u w hu
          rcases get?_set_cases hlen hu with ⟨he, hb⟩ | ⟨_, hu2⟩
          · cases hb
          · exact h.noStore u w hu2
        · intro u r2 hu
          rcases get?_set_cases hlen hu with ⟨he, hb⟩ | ⟨_, hu2⟩
          · cases hb
          · exact h.relVal u r2 hu2
        · intro u r2 hu
          rcases get?_set_cases hlen hu with ⟨he, hb⟩ | ⟨_, hu2⟩
          · injection hb with h2
            exact Or.inl (by rw [h2, hr])
          · exact h.doneVal u r2 hu2
      · rw [hstep0, if_neg hlk]
        refine rFailInv_setPc h hpc ?_ ?_ ?_
        · intro w hh; cases hh
        · intro r2 hh; cases hh
        · intro r2 hh
          injection hh with h2
          exact Or.inl (by rw [← h2, hr])
    | witer b now =>
      have hstep0 : rstep enc dec fo ctxd s t =
          (if ctxd now = true
           then { s with pcs := s.pcs.set t (.done (.error ctxCanceledErr)) }
           else if 30000 < now
           then { s with pcs := s.pcs.set t (.done (.error timeoutErr)) }
           else match s.cval with
             | some str => { s with pcs := s.pcs.set t (.done (decodeRes dec str)) }
             | none => { s with pcs := s.pcs.set t (.wlock b now) }) := by
        unfold rstep; rw [hpc]
      rw [hstep0, hctx now, if_neg (by simp)]
      by_cases hdl : 30000 < now
      · rw [if_pos hdl]
        refine rFailInv_setPc h hpc ?_ ?_ ?_
        · intro w hh; cases hh
        · intro r hh; cases hh
        · intro r hh
          injection hh with h2
          exact Or.inr (Or.inr h2.symm)
      · rw [if_neg hdl]
        cases hc : s.cval with
        | some str =>
          rw [h.cvalNone] at hc
          cases hc
        | none =>
          have hres : RFailInv e { s with pcs := s.pcs.set t (.wlock b now) } := by
            refine rFailInv_setPc h hpc ?_ ?_ ?_
            · intro w hh; cases hh
            · intro r hh; cases hh
            · intro r hh; cases hh
          have hres2 := hc ▸ hres
          exact hres2
    | wlock b now =>
      cases hl : s.lock with
      | some owner0 =>
        have hstep : rstep enc dec fo ctxd s t =
            { s with pcs := s.pcs.set t (.witer (bup b) (now + b)) } := by
          unfold rstep; rw [hpc, hl]
        rw [hstep]
        refine rFailInv_setPc h hpc ?_ ?_ ?_
        · intro w hh; cases hh
        · intro r hh; cases hh
        · intro r hh; cases hh
      | none =>
        have hstep : rstep enc dec fo ctxd s t =
            { s with pcs := s.pcs.set t (.wfinal b now) } := by
          unfold rstep; rw [hpc, hl]
        rw [hstep]
        refine rFailInv_setPc h hpc ?_ ?_ ?_
        · intro w hh; cases hh
        · intro r hh; cases hh
        · intro r hh; cases hh
    | wfinal b now =>
      have hstep : rstep enc dec fo ctxd s t =
          { s with pcs := s.pcs.set t (.done (.error notPopulatedErr)) } := by
        unfold rstep; rw [hpc, h.cvalNone]
      rw [hstep]
      refine rFailInv_setPc h hpc ?_ ?_ ?_
      · intro w hh; cases hh
      · intro r hh; cases hh
      · intro r hh
        injection hh with h2
        exact Or.inr (Or.inl h2.symm)
    | done r =>
      have hstep : rstep enc dec fo ctxd s t = s := by unfold rstep; rw [hpc]
      rw [hstep]; exact h

theorem rFailInv_run {T : Type} {enc : T → String} {dec : String → Option T}
    {fo : Nat → Except CErr T} {ctxd : Nat → Bool} {e : CErr}
    (hfo : ∀ i, fo i = .error e) (hctx : ∀ x, ctxd x = false) :
    ∀ (sched : List Nat) (s : RSys T), RFailInv e s →
      RFailInv e (rrun enc dec fo ctxd sched s) := by
  intro sched
  induction sched with
  | nil => intro s hs; exact hs
  | cons a l ih =>
    intro s hs
    exact ih (rstep enc dec fo ctxd s a) (rFailInv_step hfo hctx hs a)

theorem rFailInv_init (T : Type) (e : CErr) (n : Nat) : RFailInv e (rInit T n) := by
  refine ⟨rfl, ?_, ?_, ?_⟩
  · intro t w hpc
    have := get?_replicate hpc
    cases this
  · intro t r hpc
    have := get?_replicate hpc
    cases this
  · intro t r hpc
    have := get?_replicate hpc
    cases this

/-- On an all-failing fetch outcome, every returned result of the redis race
is the winner's wrapped fetch error, a loser's not-populated error, or a
timeout, and the cache stays empty. -/
theorem redis_fail_results {T : Type} {enc : T → String} {dec : String → Option T}
    {fo : Nat → Except CErr T} {ctxd : Nat → Bool} {e : CErr} {n : Nat} {sched : List Nat}
    (hfo : ∀ i, fo i = .error e) (hctx : ∀ x, ctxd x = false) :
    (∀ t r, (rrun enc dec fo ctxd sched (rInit T n)).pcs.get? t = some (.done r) →
      r = .error (fetchFailed e) ∨ r = .error notPopulatedErr ∨ r = .error timeoutErr) ∧
    (rrun enc dec fo ctxd sched (rInit T n)).cval = none := by
  have hinv := @rFailInv_run T enc dec fo ctxd e hfo hctx sched _ (rFailInv_init T e n)
  exact ⟨fun t r h => hinv.doneVal t r h, hinv.cvalNone⟩

/-- C1 counterexample: a complete 3-goroutine redis race on a cold cache with
a failing fetch in which (a) the fetch function executes twice — one caller
missed, lost no `SETNX` race inside the winner's window, re-acquired after
the release and fetched again, because the winner path never re-checks the
cache after `SETNX` — and (b) the winner and a waiting loser return different
errors (the wrapped fetch error vs. the not-populated error), refuting both
the "executes exactly once" and the "all N calls return the same error"
clauses of the claim as stated. -/
theorem c1_single_flight_counterexample :
    rComplete (rrun (fun n : Nat => toString n) (fun _ => none)
      (fun _ => .error (.fetchErr "boom")) (fun _ => false)
      [0, 1, 2, 0, 1, 0, 0, 1, 1, 1, 2, 2, 2] (rInit Nat 3)) ∧
    (rrun (fun n : Nat => toString n) (fun _ => none)
      (fun _ => .error (.fetchErr "boom")) (fun _ => false)
      [0, 1, 2, 0, 1, 0, 0, 1, 1, 1, 2, 2, 2] (rInit Nat 3)).fetchCount = 2 ∧
    (rrun (fun n : Nat => toString n) (fun _ => none)
      (fun _ => .error (.fetchErr "boom")) (fun _ => false)
      [0, 1, 2, 0, 1, 0, 0, 1, 1, 1, 2, 2, 2] (rInit Nat 3)).pcs =
      [.done (.error (fetchFailed (.fetchErr "boom"))),
       .done (.error notPopulatedErr),
       .done (.error (fetchFailed (.fetchErr "boom")))] ∧
    (.error (fetchFailed (.fetchErr "boom")) : Except CErr Nat) ≠
      .error notPopulatedErr := by
  refine ⟨by unfold rComplete; decide, by decide, by decide, by decide⟩

/-- C1 (amended): for N ≥ 1 concurrent `GetOrFetch` calls racing on a cold
cache, at most one fetch is in flight at any time in both variants.  In the
in-memory variant, when the first fetch succeeds with `v` the fetch executes
exactly once and every completed call returns `v`; when the single fetch of a
flight fails, every call coalesced into it returns that same error and the
cache stays empty.  In the redis variant, when every fetch attempt succeeds
with `v` every call that does not time out returns `v`; when every fetch
attempt fails, the cache stays empty and each call returns the winner's
wrapped fetch error, the loser's distinct "fetch operation failed or cache
not populated" error, or the wait timeout — not one shared error value. -/
theorem c1_single_flight_amended :
    (∀ (T : Type) (fo : Nat → Except CErr T) (v : T) (n : Nat) (sched : List Nat),
      fo 0 = .ok v → 0 < n → mComplete (mrun fo sched (mInit T n)) →
      (mrun fo sched (mInit T n)).fetchCount = 1 ∧
      ∀ t r, (mrun fo sched (mInit T n)).pcs.get? t = some (.done r) → r = .ok v) ∧
    (∀ (T : Type) (fo : Nat → Except CErr T) (e : CErr) (n : Nat) (sched : List Nat),
      fo 0 = .error e → (mrun fo sched (mInit T n)).fetchCount = 1 →
      (∀ t r, (mrun fo sched (mInit T n)).pcs.get? t = some (.done r) → r = .error e) ∧
      (mrun fo sched (mInit T n)).cache = none) ∧
    (∀ (T : Type) (enc : T → String) (dec : String → Option T) (fo : Nat → Except CErr T)
        (ctxd : Nat → Bool) (n : Nat) (sched : List Nat) (t1 t2 : Nat) (pc1 pc2 : RPc T),
      (rrun enc dec fo ctxd sched (rInit T n)).pcs.get? t1 = some pc1 →
      (rrun enc dec fo ctxd sched (rInit T n)).pcs.get? t2 = some pc2 →
      pc1.isOwner = true → pc2.isOwner = true → t1 = t2) ∧
    (∀ (T : Type) (enc : T → String) (dec : String → Option T) (fo : Nat → Except CErr T)
        (ctxd : Nat → Bool) (v : T) (n : Nat) (sched : List Nat),
      (∀ i, fo i = .ok v) → dec (enc v) = some v → (∀ x, ctxd x = false) →
      ∀ t r, (rrun enc dec fo ctxd sched (rInit T n)).pcs.get? t = some (.done r) →
        r ≠ .error timeoutErr → r = .ok v) ∧
    (∀ (T : Type) (enc : T → String) (dec : String → Option T) (fo : Nat → Except CErr T)
        (ctxd : Nat → Bool) (e : CErr) (n : Nat) (sched : List Nat),
      (∀ i, fo i = .error e) → (∀ x, ctxd x = false) →
      (∀ t r, (rrun enc dec fo ctxd sched (rInit T n)).pcs.get? t = some (.done r) →
        r = .error (fetchFailed e) ∨ r = .error notPopulatedErr ∨
        r = .error timeoutErr) ∧
      (rrun enc dec fo ctxd sched (rInit T n)).cval = none) := by
  refine ⟨?_, ?_, ?_, ?_, ?_⟩
  · intro T fo v n sched hfo hn hc
    exact mem_success_single_flight hfo hn hc
  · intro T fo e n sched hfo h1
    exact mem_fail_same_error hfo h1
  · intro T enc dec fo ctxd n sched t1 t2 pc1 pc2 h1 h2 ho1 ho2
    exact redis_mutual_exclusion enc dec fo ctxd n sched t1 t2 pc1 pc2 h1 h2 ho1 ho2
  · intro T enc dec fo ctxd v n sched hfo hdec hctx
    exact redis_success_all_get_value hfo hdec hctx
  · intro T enc dec fo ctxd e n sched hfo hctx
    exact redis_fail_results hfo hctx

/-- Witness for the amended C1 at concrete runs: a completed 1-goroutine
memory race with a succeeding fetch (one execution), a completed memory race
with a failing fetch (cache left empty, the fetch error returned), the redis
mutual-exclusion instance, a completed redis success run, and the 3-goroutine
failing redis run's loser receiving one of the three allowed errors with the
cache left empty. -/
theorem c1_single_flight_amended_witness :
    (mrun (fun _ => (.ok 5 : Except CErr Nat)) [0, 0, 0, 0, 0, 0]
      (mInit Nat 1)).fetchCount = 1 ∧
    (mrun (fun _ => (.error (.fetchErr "boom") : Except CErr Nat)) [0, 0, 0, 0, 0]
      (mInit Nat 1)).cache = none ∧
    ((.error (.fetchErr "boom") : Except CErr Nat) = .error (.fetchErr "boom")) ∧
    ((0 : Nat) = 0) ∧
    ((.ok 5 : Except CErr Nat) = .ok 5) ∧
    ((.error notPopulatedErr : Except CErr Nat) = .error (fetchFailed (.fetchErr "boom")) ∨
      (.error notPopulatedErr : Except CErr Nat) = .error notPopulatedErr ∨
      (.error notPopulatedErr : Except CErr Nat) = .error timeoutErr) ∧
    (rrun (fun _ : Nat => "v") (fun str => if str = "v" then some (5 : Nat) else none)
      (fun _ => .error (.fetchErr "boom")) (fun _ => false)
      [0, 1, 2, 0, 1, 0, 0, 1, 1, 1, 2, 2, 2] (rInit Nat 3)).cval = none := by
  refine ⟨?_, ?_, ?_, ?_, ?_, ?_, ?_⟩
  · exact (c1_single_flight_amended.1 Nat (fun _ => .ok 5) 5 1 [0, 0, 0, 0, 0, 0]
      rfl (by decide) (by unfold mComplete; decide)).1
  · exact (c1_single_flight_amended.2.1 Nat (fun _ => .error (.fetchErr "boom"))
      (.fetchErr "boom") 1 [0, 0, 0, 0, 0] rfl (by decide)).2
  · exact (c1_single_flight_amended.2.1 Nat (fun _ => .error (.fetchErr "boom"))
      (.fetchErr "boom") 1 [0, 0, 0, 0, 0] rfl (by decide)).1 0 (.error (.fetchErr "boom"))
      (by decide)
  · exact c1_single_flight_amended.2.2.1 Nat (fun _ : Nat => "v")
      (fun str => if str = "v" then some (5 : Nat) else none)
      (fun _ => .ok 5) (fun _ => false) 1 [0, 0] 0 0 .rfetch .rfetch
      (by decide) (by decide) rfl rfl
  · exact c1_single_flight_amended.2.2.2.1 Nat (fun _ : Nat => "v")
      (fun str => if str = "v" then some (5 : Nat) else none)
      (fun _ => .ok 5) (fun _ => false) 5 2 [0, 1, 0, 1, 0, 0, 0, 1]
      (fun _ => rfl) (by decide) (fun _ => rfl) 1 (.ok 5) (by decide) (by decide)
  · exact (c1_single_flight_amended.2.2.2.2 Nat (fun _ : Nat => "v")
      (fun str => if str = "v" then some (5 : Nat) else none)
      (fun _ => .error (.fetchErr "boom")) (fun _ => false) (.fetchErr "boom") 3
      [0, 1, 2, 0, 1, 0, 0, 1, 1, 1, 2, 2, 2]
      (fun _ => rfl) (fun _ => rfl)).1 1 (.error notPopulatedErr) (by decide)
  · exact (c1_single_flight_amended.2.2.2.2 Nat (fun _ : Nat => "v")
      (fun str => if str = "v" then some (5 : Nat) else none)
      (fun _ => .error (.fetchErr "boom")) (fun _ => false) (.fetchErr "boom") 3
      [0, 1, 2, 0, 1, 0, 0, 1, 1, 1, 2, 2, 2]
      (fun _ => rfl) (fun _ => rfl)).2
